import Mathlib

/-!
# Simbody `VisualizationProtocol.cpp`: outbound encoding, mesh cache, title quoting, listener

A shallow embedding of `Visualization/src/VisualizationProtocol.cpp`.

* The outbound pipe is the list of `write(outPipe, ...)` calls made so far, one `Write` per call.
* `float` and `Real` values are exact rationals; the `(float)` casts are the identity.
* 16-bit values are kept as their unsigned bit pattern, a natural number below 65536; the
  conversions to `unsigned short` and `short` that the code makes are explicit.
* Element counts (`size()`, loop counters, the index stored in the cache) are natural numbers.
* A read `v[k]` outside an array gives 0; for a mesh whose faces name vertices of the mesh every
  read of the code is inside its array.
* A failed `SimTK_ASSERT_ALWAYS` ends the call: the outcome records the message and the state
  the protocol object had at that point.
* The inbound pipe is the list of bytes not yet read, with the number of bytes each successive
  `READ` call can deliver; loops that need not end (`readData`, the listener loop) take a bound
  on their iterations.
* For the scene lock, a function is the list of its lock, unlock and write steps, and two
  threads make their steps in any order, a thread waiting for the held lock making none.
-/

namespace SimTK

/-! ## Data model and operations -/

/-- Three coordinates (SimTK `Vec3`); the type is declared outside this file. -/
structure Vec3 where
  x : ℚ
  y : ℚ
  z : ℚ
deriving DecidableEq, Repr

/-- Four colour components (SimTK `Vec4`). -/
structure Vec4 where
  r : ℚ
  g : ℚ
  b : ℚ
  a : ℚ
deriving DecidableEq, Repr

/-- A rigid transform as the encoder reads it: `rot` is the value of
`R().convertRotationToBodyFixedXYZ()` and `T` the translation. -/
structure Transform where
  rot : Vec3
  T : Vec3
deriving DecidableEq, Repr

/-- The part of `PolygonalMesh` the encoder reads: `vertices[i]` is `getVertexPosition(i)`,
`faces[i][j]` is `getFaceVertex(i, j)`, `faces[i].length` is `getNumVerticesForFace(i)`.
Vertex indices are natural numbers. -/
structure PolygonalMesh where
  vertices : List Vec3
  faces : List (List Nat)
deriving DecidableEq, Repr

/-- Declarations that `VisualizationProtocol.cpp` takes from SimTK headers outside this file.
They are parameters of the embedding: the scalar operations of `Vec3` that the triangulation
applies to `center` (`Vec3 center(0)`, `center += float`, `center /= int`) and the two
`DecorativeGeometry` representation constants `drawMesh` compares against. -/
structure Headers where
  vec3OfScalar : ℚ → Vec3
  scalarPlusEq : Vec3 → ℚ → Vec3
  scalarDivideEq : Vec3 → ℚ → Vec3
  DrawPoints : Int
  DrawWireframe : Int

/-- The Simbody declarations: a scalar is broadcast to the three components of a `Vec3`
(`Vec::scalarPlusEq`, `Vec::scalarDivideEq`), and `DrawPoints = 1`, `DrawWireframe = 2`. -/
def simbodyHeaders : Headers where
  vec3OfScalar := fun e => ⟨e, e, e⟩
  scalarPlusEq := fun v e => ⟨v.x + e, v.y + e, v.z + e⟩
  scalarDivideEq := fun v e => ⟨v.x / e, v.y / e, v.z / e⟩
  DrawPoints := 1
  DrawWireframe := 2

/-- The one-byte outbound command codes of `VisualizationProtocol.h`, by name. -/
inductive Opcode where
  | START_OF_SCENE
  | END_OF_SCENE
  | DEFINE_MESH
  | ADD_POINT_MESH
  | ADD_WIREFRAME_MESH
  | ADD_SOLID_MESH
  | ADD_LINE
  | ADD_TEXT
  | ADD_FRAME
  | SET_CAMERA
  | ZOOM_CAMERA
  | SET_FIELD_OF_VIEW
  | SET_CLIP_PLANES
  | SET_GROUND_POSITION
  | DEFINE_MENU
deriving DecidableEq, Repr

/-- One `write(outPipe, ...)` call: what it puts on the outbound pipe. -/
inductive Write where
  /-- The one-byte command code, `write(outPipe, &command, 1)`. -/
  | command (c : Opcode)
  /-- One 16-bit value, as its unsigned bit pattern. -/
  | short (bits : Nat)
  /-- An array of 32-bit floats. -/
  | floats (xs : List ℚ)
  /-- An array of `unsigned short`. -/
  | shorts (xs : List Nat)
  /-- Raw characters of a string. -/
  | chars (xs : List Char)
  /-- An array of `int`. -/
  | ints (xs : List Int)
deriving DecidableEq, Repr

/-- The protocol object: `meshes` is the `map<const void*, int>` as the list of its
(identity, index) pairs in insertion order, `outPipe` the writes made so far. -/
structure VisualizationProtocol where
  meshes : List (Nat × Nat)
  outPipe : List Write
deriving DecidableEq, Repr

/-- How a call ended: the state of the protocol object when it ended, and the message of the
`SimTK_ASSERT_ALWAYS` that failed, if one did. -/
structure Outcome where
  state : VisualizationProtocol
  failed : Option String
deriving DecidableEq, Repr

/-- Conversion `(unsigned short)` of a non-negative integer. -/
def toUShort (n : Nat) : Nat := n % 65536

/-- Conversion to `short`: the signed 16-bit value. -/
def toShort (n : Int) : Int := (n + 32768) % 65536 - 32768

/-- Lookup `meshes.find(impl)`: the index stored for `impl`, if any. -/
def find : List (Nat × Nat) → Nat → Option Nat
  | [], _ => none
  | (k, v) :: rest, impl => if k = impl then some v else find rest impl

/-- The local vectors `vertices` (flat floats, three per vertex) and `faces`
(flat `unsigned short` indices, three per triangle) of `drawPolygonalMesh`. -/
structure MeshArrays where
  vertices : List ℚ
  faces : List Nat
deriving DecidableEq, Repr

/-- Body of the first loop of `drawPolygonalMesh`: push the three coordinates of one vertex. -/
def pushVertex (vertices : List ℚ) (pos : Vec3) : List ℚ :=
  vertices ++ [pos.x, pos.y, pos.z]

/-- First loop of `drawPolygonalMesh`: the flat vertex array of the mesh. -/
def flattenVertices (mesh : PolygonalMesh) : List ℚ :=
  mesh.vertices.foldl pushVertex []

/-- The value `center` has after `Vec3 center(0); for j: center += vertices[getFaceVertex(i, j)];
center /= numVert`, where `vertices` is the flat float array. -/
def faceCenter (h : Headers) (vertices : List ℚ) (face : List Nat) : Vec3 :=
  h.scalarDivideEq
    ((List.range face.length).foldl
      (fun center j => h.scalarPlusEq center (vertices.getD (face.getD j 0) 0))
      (h.vec3OfScalar 0))
    (face.length : ℚ)

/-- Body of the second loop of `drawPolygonalMesh`, for one face. -/
def triangulateFace (h : Headers) (s : MeshArrays) (face : List Nat) : MeshArrays :=
  let numVert := face.length
  let getFaceVertex := fun j => face.getD j 0
  if numVert < 3 then s
  else if numVert = 3 then
    { s with faces := s.faces ++
        [toUShort (getFaceVertex 0), toUShort (getFaceVertex 1), toUShort (getFaceVertex 2)] }
  else if numVert = 4 then
    { s with faces := s.faces ++
        [toUShort (getFaceVertex 0), toUShort (getFaceVertex 1), toUShort (getFaceVertex 2),
         toUShort (getFaceVertex 2), toUShort (getFaceVertex 3), toUShort (getFaceVertex 0)] }
  else
    let center := faceCenter h s.vertices face
    let vertices := s.vertices ++ [center.x, center.y, center.z]
    let newIndex := vertices.length - 1
    let faces := (List.range (numVert - 1)).foldl
      (fun faces j => faces ++
        [toUShort (getFaceVertex j), toUShort (getFaceVertex (j + 1)), toUShort newIndex])
      s.faces
    { vertices := vertices, faces := faces }

/-- The second loop run over a list of faces, from the arrays `s`. -/
def triangulateFaces (h : Headers) (s : MeshArrays) (faces : List (List Nat)) : MeshArrays :=
  faces.foldl (triangulateFace h) s

/-- Both loops of `drawPolygonalMesh`: the arrays just before the two size assertions. -/
def buildArrays (h : Headers) (mesh : PolygonalMesh) : MeshArrays :=
  triangulateFaces h { vertices := flattenVertices mesh, faces := [] } mesh.faces

/-- The three writes of `drawMesh`. `representation` is the `short` value, `meshIndex` the bit
pattern of the `short` index. -/
def drawMeshWrites (h : Headers) (transform : Transform) (scale : Vec3) (color : Vec4)
    (representation : Int) (meshIndex : Nat) : List Write :=
  [ Write.command
      (if representation = h.DrawPoints then Opcode.ADD_POINT_MESH
       else if representation = h.DrawWireframe then Opcode.ADD_WIREFRAME_MESH
       else Opcode.ADD_SOLID_MESH),
    Write.floats
      [transform.rot.x, transform.rot.y, transform.rot.z,
       transform.T.x, transform.T.y, transform.T.z,
       scale.x, scale.y, scale.z,
       color.r, color.g, color.b, color.a],
    Write.short meshIndex ]

/-- Embedding of `VisualizationProtocol::drawMesh`. -/
def drawMesh (h : Headers) (p : VisualizationProtocol) (transform : Transform) (scale : Vec3)
    (color : Vec4) (representation : Int) (meshIndex : Nat) : VisualizationProtocol :=
  { p with outPipe := p.outPipe ++ drawMeshWrites h transform scale color representation meshIndex }

/-- The five writes of the DefineMesh message for the arrays `a`. -/
def defineMeshWrites (a : MeshArrays) : List Write :=
  [ Write.command Opcode.DEFINE_MESH,
    Write.short (toUShort (a.vertices.length / 3)),
    Write.short (toUShort (a.faces.length / 3)),
    Write.floats a.vertices,
    Write.shorts a.faces ]

/-- Embedding of `VisualizationProtocol::drawPolygonalMesh`; `impl` is the address
`&mesh.getImpl()`, the identity of the mesh. -/
def drawPolygonalMesh (h : Headers) (p : VisualizationProtocol) (impl : Nat)
    (mesh : PolygonalMesh) (transform : Transform) (scale : ℚ) (color : Vec4)
    (representation : Int) : Outcome :=
  match find p.meshes impl with
  | none =>
    let a := buildArrays h mesh
    if ¬ a.vertices.length ≤ 65536 * 3 then
      { state := p, failed := some "DecorativeMesh cannot have more than 65536 vertices" }
    else if ¬ a.faces.length ≤ 65536 * 3 then
      { state := p, failed := some "DecorativeMesh cannot have more than 65536 faces" }
    else
      let index := p.meshes.length + 4
      let p1 : VisualizationProtocol :=
        { meshes := p.meshes ++ [(impl, index)], outPipe := p.outPipe ++ defineMeshWrites a }
      { state := drawMesh h p1 transform (h.vec3OfScalar scale) color (toShort representation)
          (toUShort index),
        failed := none }
  | some index =>
    { state := drawMesh h p transform (h.vec3OfScalar scale) color (toShort representation)
        (toUShort index),
      failed := none }

/-- Embedding of `VisualizationProtocol::drawText`. -/
def drawText (p : VisualizationProtocol) (position : Vec3) (scale : ℚ) (color : Vec4)
    (string : List Char) : Outcome :=
  if ¬ string.length ≤ 256 then
    { state := p, failed := some "DecorativeText cannot be longer than 256 characters" }
  else
    let length : Int := toShort string.length
    { state :=
        { p with outPipe := p.outPipe ++
            [ Write.command Opcode.ADD_TEXT,
              Write.floats [position.x, position.y, position.z, scale, color.r, color.g, color.b],
              Write.short (length % 65536).toNat,
              Write.chars (string.take length.toNat) ] },
      failed := none }

/-- Arguments of one `drawPolygonalMesh` call. -/
structure MeshCall where
  impl : Nat
  mesh : PolygonalMesh
  transform : Transform
  scale : ℚ
  color : Vec4
  representation : Int
deriving DecidableEq, Repr

/-- One call of `drawPolygonalMesh` with the arguments `c`. -/
def drawCall (h : Headers) (p : VisualizationProtocol) (c : MeshCall) : Outcome :=
  drawPolygonalMesh h p c.impl c.mesh c.transform c.scale c.color c.representation

/-- A caller making the calls `cs` one after the other on one protocol object; a failed
assertion is fatal, so the calls after it are not made. -/
def drawCalls (h : Headers) : VisualizationProtocol → List MeshCall → Outcome
  | p, [] => { state := p, failed := none }
  | p, c :: cs =>
    match (drawCall h p c).failed with
    | none => drawCalls h (drawCall h p c).state cs
    | some msg => { state := (drawCall h p c).state, failed := some msg }

/-- The distinct elements of a list in the order of their first occurrence. -/
def firstOccurrences : List Nat → List Nat
  | [] => []
  | x :: xs => x :: (firstOccurrences xs).filter (fun y => y ≠ x)

/-- The arithmetic mean of the positions of the vertices of `face`, component by component. -/
def faceMean (mesh : PolygonalMesh) (face : List Nat) : Vec3 :=
  let ps := face.map (fun k => mesh.vertices.getD k ⟨0, 0, 0⟩)
  { x := (ps.map Vec3.x).sum / face.length,
    y := (ps.map Vec3.y).sum / face.length,
    z := (ps.map Vec3.z).sum / face.length }

/-- A regular-looking pentagon mesh: five vertices, one face through all of them. -/
def pentagon : PolygonalMesh where
  vertices := [⟨0, 0, 0⟩, ⟨2, 0, 0⟩, ⟨3, 2, 0⟩, ⟨1, 4, 0⟩, ⟨-1, 2, 0⟩]
  faces := [[0, 1, 2, 3, 4]]

/-- The pentagon mesh with its last vertex moved out of the plane. -/
def pentagonLifted : PolygonalMesh where
  vertices := [⟨0, 0, 0⟩, ⟨2, 0, 0⟩, ⟨3, 2, 0⟩, ⟨1, 4, 0⟩, ⟨-1, 2, 5⟩]
  faces := [[0, 1, 2, 3, 4]]

/-- The coordinates of a list of vertices, three per vertex, in order. -/
def coordinates (vs : List Vec3) : List ℚ :=
  vs.flatMap (fun v => [v.x, v.y, v.z])

/-- The triangles the last branch of the loop body pushes for a face, with the value of
`newIndex`. -/
def fan (face : List Nat) (newIndex : Nat) : List Nat :=
  (List.range (face.length - 1)).flatMap
    (fun j => [toUShort (face.getD j 0), toUShort (face.getD (j + 1) 0), toUShort newIndex])

/-- A square split in two triangles, with one loose vertex. -/
def twoTriangles : PolygonalMesh where
  vertices := [⟨0, 0, 0⟩, ⟨1, 0, 0⟩, ⟨1, 1, 0⟩, ⟨0, 1, 0⟩, ⟨5, 5, 5⟩]
  faces := [[0, 1, 2], [2, 3, 0]]

/-- The identity transform. -/
def identityTransform : Transform where
  rot := ⟨0, 0, 0⟩
  T := ⟨0, 0, 0⟩

/-- Solid red. -/
def red : Vec4 where
  r := 1
  g := 0
  b := 0
  a := 1

/-- A triangle, a quadrilateral and another triangle on five vertices. -/
def triQuadTri : PolygonalMesh where
  vertices := [⟨0, 0, 0⟩, ⟨1, 0, 0⟩, ⟨1, 1, 0⟩, ⟨0, 1, 0⟩, ⟨0, 0, 1⟩]
  faces := [[0, 1, 4], [0, 1, 2, 3], [1, 2, 4]]

/-- A call drawing the two-triangle mesh under identity 7. -/
def callSquare : MeshCall where
  impl := 7
  mesh := twoTriangles
  transform := identityTransform
  scale := 1
  color := red
  representation := 3

/-- A call drawing the pentagon under identity 9. -/
def callPentagon : MeshCall where
  impl := 9
  mesh := pentagon
  transform := identityTransform
  scale := 2
  color := red
  representation := 2

/-- A call under identity 7 again, with other mesh data and another scale. -/
def callSquareAgain : MeshCall where
  impl := 7
  mesh := triQuadTri
  transform := identityTransform
  scale := 3
  color := red
  representation := 1

/-- A mesh of `n` vertices at the origin and no face. -/
def pointCloud (n : Nat) : PolygonalMesh where
  vertices := List.replicate n ⟨0, 0, 0⟩
  faces := []

/-- Embedding of `VisualizationProtocol::drawBox`. -/
def drawBox (h : Headers) (p : VisualizationProtocol) (transform : Transform) (scale : Vec3)
    (color : Vec4) (representation : Int) : VisualizationProtocol :=
  drawMesh h p transform scale color (toShort representation) 0

/-- Embedding of `VisualizationProtocol::drawEllipsoid`. -/
def drawEllipsoid (h : Headers) (p : VisualizationProtocol) (transform : Transform)
    (scale : Vec3) (color : Vec4) (representation : Int) : VisualizationProtocol :=
  drawMesh h p transform scale color (toShort representation) 1

/-- Embedding of `VisualizationProtocol::drawCylinder`. -/
def drawCylinder (h : Headers) (p : VisualizationProtocol) (transform : Transform)
    (scale : Vec3) (color : Vec4) (representation : Int) : VisualizationProtocol :=
  drawMesh h p transform scale color (toShort representation) 2

/-- Embedding of `VisualizationProtocol::drawCircle`. -/
def drawCircle (h : Headers) (p : VisualizationProtocol) (transform : Transform) (scale : Vec3)
    (color : Vec4) (representation : Int) : VisualizationProtocol :=
  drawMesh h p transform scale color (toShort representation) 3

/-- The mesh without its faces of fewer than three vertices. -/
def withoutSmallFaces (mesh : PolygonalMesh) : PolygonalMesh where
  vertices := mesh.vertices
  faces := mesh.faces.filter (fun f => decide (3 ≤ f.length))

/-- The double-quote character. -/
def dquote : Char := Char.ofNat 34

/-- The backslash character. -/
def backslash : Char := Char.ofNat 92

/-- The test `std::isspace` in the C locale: space, tab, line feed, vertical tab, form feed,
carriage return. -/
def isspace (c : Char) : Bool :=
  c.toNat = 32 || (9 ≤ c.toNat && c.toNat ≤ 13)

/-- Body of the loop of `quoteString`: the pair is (`outstr`, `quoting`). -/
def quoteStep (st : List Char × Bool) (c : Char) : List Char × Bool :=
  if isspace c then
    if !st.2 then (st.1 ++ [dquote] ++ [c], true)
    else (st.1 ++ [c], st.2)
  else
    let st1 : List Char × Bool := if st.2 then (st.1 ++ [dquote], false) else st
    let out2 : List Char := if c = dquote then st1.1 ++ [backslash] else st1.1
    (out2 ++ [c], st1.2)

/-- Embedding of `quoteString`. -/
def quoteString (str : List Char) : List Char :=
  (str.foldl quoteStep ([], false)).1

/-- State of the command-line reader: the arguments completed so far, the argument being
read, whether an argument is being read, whether a double quote is open, and whether the last
character was a backslash not yet put into the argument. -/
structure ArgReader where
  args : List (List Char)
  cur : List Char
  inArg : Bool
  inQuote : Bool
  pending : Bool
deriving DecidableEq, Repr

/-- One character of a shell-style command line, as the specification words it: a backslash
followed by a double quote is a literal double quote, a double quote opens or closes a group
in which whitespace is an ordinary character, whitespace outside a group ends the argument,
every other character (a backslash not followed by a double quote too) stands for itself. -/
def readArgChar (s : ArgReader) (c : Char) : ArgReader :=
  if s.pending && c = dquote then
    { s with cur := s.cur ++ [dquote], inArg := true, pending := false }
  else
    let s1 : ArgReader :=
      if s.pending then { s with cur := s.cur ++ [backslash], inArg := true, pending := false }
      else s
    if c = backslash then { s1 with pending := true, inArg := true }
    else if c = dquote then { s1 with inQuote := !s1.inQuote, inArg := true }
    else if isspace c && !s1.inQuote then
      if s1.inArg then { s1 with args := s1.args ++ [s1.cur], cur := [], inArg := false }
      else s1
    else { s1 with cur := s1.cur ++ [c], inArg := true }

/-- The arguments of a shell-style command line; at the end of the line the argument being
read, if any, is completed, also inside an open group. -/
def parseCommandLine (line : List Char) : List (List Char) :=
  let s := line.foldl readArgChar
    { args := [], cur := [], inArg := false, inQuote := false, pending := false }
  let cur := if s.pending then s.cur ++ [backslash] else s.cur
  if s.inArg then s.args ++ [cur] else s.args

/-- The title `a\ "b"`: a backslash stands right before the space. -/
def titleBackslashSpace : List Char :=
  ['a', backslash, ' ', dquote, 'b', dquote]

/-- The title `My "x" Win`: spaces and double quotes, no backslash. -/
def titleQuoted : List Char :=
  ['M', 'y', ' ', dquote, 'x', dquote, ' ', 'W', 'i', 'n']

/-- The inbound pipe `inPipe` as the simulator sees it: `data` are the bytes sent by the
visualizer and not yet read, in order; the n-th call of `READ` delivers at most `chunk n`
bytes; `reads` counts the calls made so far. -/
structure InPipe where
  data : List Nat
  chunk : Nat → Nat
  reads : Nat

/-- One call `READ(inPipe, p, count)`: the bytes it delivers, which are the next bytes of the
pipe, at most `count` and at most what this call can deliver, and the pipe after it. The
return value of the call is the number of bytes delivered. -/
def READ (pipe : InPipe) (count : Nat) : List Nat × InPipe :=
  (pipe.data.take (min count (pipe.chunk pipe.reads)),
   { data := pipe.data.drop (min count (pipe.chunk pipe.reads)),
     chunk := pipe.chunk,
     reads := pipe.reads + 1 })

/-- The memory at `buffer` after `got` has been stored from offset `offset` on. -/
def store (buffer : List Nat) (offset : Nat) (got : List Nat) : List Nat :=
  buffer.take offset ++ got ++ buffer.drop (offset + got.length)

/-- The loop of `readData` with `totalRead` as loop variable, run for at most `fuel`
iterations; `none` when the loop has not ended by then. -/
def readDataLoop (bytes : Nat) : Nat → InPipe → List Nat → Nat → Option (List Nat × InPipe)
  | 0, pipe, buffer, totalRead =>
    if totalRead < bytes then none else some (buffer, pipe)
  | fuel + 1, pipe, buffer, totalRead =>
    if totalRead < bytes then
      readDataLoop bytes fuel (READ pipe (bytes - totalRead)).2
        (store buffer totalRead (READ pipe (bytes - totalRead)).1)
        (totalRead + (READ pipe (bytes - totalRead)).1.length)
    else some (buffer, pipe)

/-- Embedding of `readData`: the buffer and the pipe when it returns, `none` when its loop has
not ended after `fuel` iterations. -/
def readData (fuel : Nat) (pipe : InPipe) (buffer : List Nat) (bytes : Nat) :
    Option (List Nat × InPipe) :=
  readDataLoop bytes fuel pipe buffer 0

/-- A pipe that delivers one byte, then two, then one, then two, and so on. -/
def stutter (data : List Nat) : InPipe where
  data := data
  chunk := fun n => if n % 2 = 0 then 1 else 2
  reads := 0

/-- The two inbound command codes of `VisualizationProtocol.h`, as byte values; the header is
outside this file, so they are parameters of the embedding. -/
structure InboundCodes where
  KEY_PRESSED : Nat
  MENU_SELECTED : Nat

/-- One call of a listener's method by the listener thread: `listeners[i]->keyPressed(key,
modifiers)` or `listeners[i]->menuSelected(item)`. -/
inductive Notification where
  | keyPressed (listener : Nat) (key : Nat) (modifiers : Nat)
  | menuSelected (listener : Nat) (item : Int)
deriving DecidableEq, Repr

/-- The signed 32-bit value of a bit pattern. -/
def toInt (n : Nat) : Int := ((n : Int) + 2147483648) % 4294967296 - 2147483648

/-- The `int` whose four bytes in memory are `item`, lowest byte first. -/
def intOfBytes (item : List Nat) : Int :=
  toInt (item.getD 0 0 + 256 * item.getD 1 0 + 65536 * item.getD 2 0
    + 16777216 * item.getD 3 0)

/-- How one iteration of the listener loop ended: it dispatched an event and the loop goes on,
or a `readData` did not return, or the assertion of the `default` case failed. -/
inductive ListenerStatus where
  | running
  | blocked
  | failed
deriving DecidableEq, Repr

/-- The listener thread: the inbound pipe, its `char buffer[256]`, and the calls it has made
to the listeners so far. -/
structure Listener where
  pipe : InPipe
  buffer : List Nat
  notified : List Notification

/-- One iteration of the `while (true)` loop of `listenForVisualizationEvents`, with
`numListeners` registered listeners; every `readData` may take `readFuel` iterations. -/
def listenOnce (codes : InboundCodes) (numListeners readFuel : Nat) (s : Listener) :
    Listener × ListenerStatus :=
  match readData readFuel s.pipe s.buffer 1 with
  | none => (s, ListenerStatus.blocked)
  | some (buffer, pipe) =>
    if buffer.getD 0 0 = codes.KEY_PRESSED then
      match readData readFuel pipe buffer 2 with
      | none =>
        ({ pipe := pipe, buffer := buffer, notified := s.notified }, ListenerStatus.blocked)
      | some (buffer2, pipe2) =>
        ({ pipe := pipe2, buffer := buffer2,
           notified := s.notified ++ (List.range numListeners).map
             (fun i => Notification.keyPressed i (buffer2.getD 0 0) (buffer2.getD 1 0)) },
         ListenerStatus.running)
    else if buffer.getD 0 0 = codes.MENU_SELECTED then
      match readData readFuel pipe [0, 0, 0, 0] 4 with
      | none =>
        ({ pipe := pipe, buffer := buffer, notified := s.notified }, ListenerStatus.blocked)
      | some (item, pipe2) =>
        ({ pipe := pipe2, buffer := buffer,
           notified := s.notified ++ (List.range numListeners).map
             (fun i => Notification.menuSelected i (intOfBytes item)) },
         ListenerStatus.running)
    else
      ({ pipe := pipe, buffer := buffer, notified := s.notified }, ListenerStatus.failed)

/-- Embedding of `listenForVisualizationEvents`: at most `fuel` iterations of its loop. -/
def listenForVisualizationEvents (codes : InboundCodes) (numListeners readFuel : Nat) :
    Nat → Listener → Listener × ListenerStatus
  | 0, s => (s, ListenerStatus.running)
  | fuel + 1, s =>
    match (listenOnce codes numListeners readFuel s).2 with
    | ListenerStatus.running =>
      listenForVisualizationEvents codes numListeners readFuel fuel
        (listenOnce codes numListeners readFuel s).1
    | ListenerStatus.blocked =>
      ((listenOnce codes numListeners readFuel s).1, ListenerStatus.blocked)
    | ListenerStatus.failed =>
      ((listenOnce codes numListeners readFuel s).1, ListenerStatus.failed)

/-- An event of the visualizer, as the specification names them. -/
inductive InboundEvent where
  | KeyPressed (key : Nat) (modifiers : Nat)
  | MenuSelected (itemId : Int)
deriving DecidableEq, Repr

/-- The four bytes of a signed 32-bit integer in memory, lowest byte first. -/
def bytesOfInt (x : Int) : List Nat :=
  [(x % 4294967296).toNat % 256, (x % 4294967296).toNat / 256 % 256,
   (x % 4294967296).toNat / 65536 % 256, (x % 4294967296).toNat / 16777216 % 256]

/-- The encoding of an event by a conformant sender, as the specification words it: the
KeyPressed code, the key byte and the modifier byte; the MenuSelected code and the four bytes
of the item id. -/
def encodeEvent (codes : InboundCodes) : InboundEvent → List Nat
  | InboundEvent.KeyPressed key modifiers => [codes.KEY_PRESSED, key, modifiers]
  | InboundEvent.MenuSelected itemId => codes.MENU_SELECTED :: bytesOfInt itemId

/-- The calls that dispatch an event to `numListeners` listeners in their order. -/
def dispatchOf (numListeners : Nat) : InboundEvent → List Notification
  | InboundEvent.KeyPressed key modifiers =>
    (List.range numListeners).map (fun i => Notification.keyPressed i key modifiers)
  | InboundEvent.MenuSelected itemId =>
    (List.range numListeners).map (fun i => Notification.menuSelected i itemId)

/-- Inbound codes for the examples: KeyPressed is 1, MenuSelected is 2. -/
def exampleCodes : InboundCodes where
  KEY_PRESSED := 1
  MENU_SELECTED := 2

/-- One step of a thread on the protocol object, as far as the outbound pipe and `sceneLock`
are concerned: `pthread_mutex_lock(&sceneLock)`, `pthread_mutex_unlock(&sceneLock)`, or one
`write(outPipe, ...)`. -/
inductive Action where
  | lock
  | unlock
  | write (w : Write)
deriving DecidableEq, Repr

/-- The steps of `VisualizationProtocol::beginScene`. -/
def beginScene : List Action :=
  [Action.lock, Action.write (Write.command Opcode.START_OF_SCENE)]

/-- The steps of `VisualizationProtocol::finishScene`. -/
def finishScene : List Action :=
  [Action.write (Write.command Opcode.END_OF_SCENE), Action.unlock]

/-- The steps of `VisualizationProtocol::setCameraTransform`. -/
def setCameraTransform (transform : Transform) : List Action :=
  [Action.lock,
   Action.write (Write.command Opcode.SET_CAMERA),
   Action.write (Write.floats
     [transform.rot.x, transform.rot.y, transform.rot.z,
      transform.T.x, transform.T.y, transform.T.z]),
   Action.unlock]

/-- The steps of `VisualizationProtocol::zoomCamera`. -/
def zoomCamera : List Action :=
  [Action.lock, Action.write (Write.command Opcode.ZOOM_CAMERA), Action.unlock]

/-- The steps of `VisualizationProtocol::setFieldOfView`. -/
def setFieldOfView (fov : ℚ) : List Action :=
  [Action.lock,
   Action.write (Write.command Opcode.SET_FIELD_OF_VIEW),
   Action.write (Write.floats [fov]),
   Action.unlock]

/-- The steps of `VisualizationProtocol::setClippingPlanes`. -/
def setClippingPlanes (near far : ℚ) : List Action :=
  [Action.lock,
   Action.write (Write.command Opcode.SET_CLIP_PLANES),
   Action.write (Write.floats [near, far]),
   Action.unlock]

/-- The steps of `VisualizationProtocol::setGroundPosition`; `axis` is the integer value of
the `CoordinateAxis`. -/
def setGroundPosition (axis : Int) (height : ℚ) : List Action :=
  [Action.lock,
   Action.write (Write.command Opcode.SET_GROUND_POSITION),
   Action.write (Write.floats [height]),
   Action.write (Write.short (toShort axis % 65536).toNat),
   Action.unlock]

/-- The steps of `VisualizationProtocol::addMenu`; an item is its label and its number. -/
def addMenu (title : List Char) (items : List (List Char × Int)) : List Action :=
  [Action.lock,
   Action.write (Write.command Opcode.DEFINE_MENU),
   Action.write (Write.short (toShort title.length % 65536).toNat),
   Action.write (Write.chars (title.take (toShort title.length).toNat)),
   Action.write (Write.short (toShort items.length % 65536).toNat)]
  ++ (items.take (toShort items.length).toNat).flatMap
      (fun item =>
        [Action.write (Write.ints [item.2, (item.1.length : Int)]),
         Action.write (Write.chars item.1)])
  ++ [Action.unlock]

/-- A scene bracket of one thread: `beginScene`, then the writes of its draw commands, which
take no lock, then `finishScene`. -/
def sceneBracket (draws : List Write) : List Action :=
  beginScene ++ draws.map Action.write ++ finishScene

/-- The writes among the steps of a thread, in order. -/
def writesOf : List Action → List Write
  | [] => []
  | Action.write w :: rest => w :: writesOf rest
  | _ :: rest => writesOf rest

/-- Two threads on one protocol object: whether `sceneLock` is held, the steps the thread of
the scene and the thread of the control message still have to make, and the outbound pipe. -/
structure Threads where
  locked : Bool
  scene : List Action
  control : List Action
  outPipe : List Write
deriving DecidableEq, Repr

/-- The scheduler lets one thread make its next step: `who = false` the thread of the scene,
`who = true` the thread of the control message. A thread that has finished, or that waits in
`pthread_mutex_lock` for the lock held by the other, makes no step. -/
def threadStep (t : Threads) (who : Bool) : Threads :=
  if who then
    match t.control with
    | [] => t
    | Action.lock :: rest =>
      if t.locked then t else { t with locked := true, control := rest }
    | Action.unlock :: rest => { t with locked := false, control := rest }
    | Action.write w :: rest => { t with control := rest, outPipe := t.outPipe ++ [w] }
  else
    match t.scene with
    | [] => t
    | Action.lock :: rest =>
      if t.locked then t else { t with locked := true, scene := rest }
    | Action.unlock :: rest => { t with locked := false, scene := rest }
    | Action.write w :: rest => { t with scene := rest, outPipe := t.outPipe ++ [w] }

/-- An interleaving: the threads make steps in the order `schedule` names them. -/
def interleave (schedule : List Bool) (t : Threads) : Threads :=
  schedule.foldl threadStep t

/-- The steps of a function that takes the lock, makes the writes `ws` and releases it. -/
def critical (ws : List Write) : List Action :=
  Action.lock :: (ws.map Action.write ++ [Action.unlock])

/-- The states two threads can be in when the scene thread runs `critical ws1` and the control
thread `critical ws2`: neither has started; one is inside with the other waiting or not yet
started; one has finished; one has finished and the other is inside; both have finished. The
pipe holds the writes of the thread that took the lock first, then those of the other. -/
inductive Exclusive (ws1 ws2 : List Write) : Threads → Prop where
  | start : Exclusive ws1 ws2
      { locked := false, scene := critical ws1, control := critical ws2, outPipe := [] }
  | sceneInside (pre r : List Write) (hsplit : ws1 = pre ++ r) : Exclusive ws1 ws2
      { locked := true, scene := r.map Action.write ++ [Action.unlock],
        control := critical ws2, outPipe := pre }
  | sceneDone : Exclusive ws1 ws2
      { locked := false, scene := [], control := critical ws2, outPipe := ws1 }
  | controlSecond (pre r : List Write) (hsplit : ws2 = pre ++ r) : Exclusive ws1 ws2
      { locked := true, scene := [], control := r.map Action.write ++ [Action.unlock],
        outPipe := ws1 ++ pre }
  | sceneThenControl : Exclusive ws1 ws2
      { locked := false, scene := [], control := [], outPipe := ws1 ++ ws2 }
  | controlInside (pre r : List Write) (hsplit : ws2 = pre ++ r) : Exclusive ws1 ws2
      { locked := true, scene := critical ws1,
        control := r.map Action.write ++ [Action.unlock], outPipe := pre }
  | controlDone : Exclusive ws1 ws2
      { locked := false, scene := critical ws1, control := [], outPipe := ws2 }
  | sceneSecond (pre r : List Write) (hsplit : ws1 = pre ++ r) : Exclusive ws1 ws2
      { locked := true, scene := r.map Action.write ++ [Action.unlock], control := [],
        outPipe := ws2 ++ pre }
  | controlThenScene : Exclusive ws1 ws2
      { locked := false, scene := [], control := [], outPipe := ws2 ++ ws1 }

/-! ## Lemmas on the two loops -/

theorem foldl_pushVertex (vs : List Vec3) (acc : List ℚ) :
    vs.foldl pushVertex acc = acc ++ coordinates vs := by
  induction vs generalizing acc with
  | nil => simp [coordinates]
  | cons v vs ih =>
    simp only [List.foldl_cons, ih, pushVertex, coordinates, List.flatMap_cons]
    simp

theorem flattenVertices_eq (mesh : PolygonalMesh) :
    flattenVertices mesh = coordinates mesh.vertices := by
  simp [flattenVertices, foldl_pushVertex]

theorem coordinates_length (vs : List Vec3) : (coordinates vs).length = 3 * vs.length := by
  induction vs with
  | nil => simp [coordinates]
  | cons v vs ih =>
    simp only [coordinates, List.flatMap_cons, List.length_append, List.length_cons,
      List.length_nil] at ih ⊢
    omega

theorem flattenVertices_length (mesh : PolygonalMesh) :
    (flattenVertices mesh).length = 3 * mesh.vertices.length := by
  rw [flattenVertices_eq, coordinates_length]

theorem foldl_append_eq_flatMap {α β : Type} (F : α → List β) (l : List α) (init : List β) :
    l.foldl (fun acc j => acc ++ F j) init = init ++ l.flatMap F := by
  induction l generalizing init with
  | nil => simp
  | cons a l ih => simp [ih]

theorem length_flatMap_three {α β : Type} (F : α → List β) (l : List α)
    (hF : ∀ a, (F a).length = 3) : (l.flatMap F).length = 3 * l.length := by
  induction l with
  | nil => simp
  | cons a l ih =>
    simp only [List.flatMap_cons, List.length_append, List.length_cons, hF, ih]
    omega

theorem fan_length (face : List Nat) (newIndex : Nat) :
    (fan face newIndex).length = 3 * (face.length - 1) := by
  unfold fan
  have h3 := length_flatMap_three
    (fun j => [toUShort (face.getD j 0), toUShort (face.getD (j + 1) 0), toUShort newIndex])
    (List.range (face.length - 1)) (fun _ => rfl)
  rw [h3, List.length_range]

theorem triangulateFace_small (h : Headers) (s : MeshArrays) (face : List Nat)
    (hn : face.length < 3) : triangulateFace h s face = s := by
  simp [triangulateFace, hn]

theorem triangulateFace_three (h : Headers) (s : MeshArrays) (a b c : Nat) :
    triangulateFace h s [a, b, c]
      = { vertices := s.vertices, faces := s.faces ++ [toUShort a, toUShort b, toUShort c] } := by
  simp [triangulateFace]

theorem triangulateFace_four (h : Headers) (s : MeshArrays) (a b c d : Nat) :
    triangulateFace h s [a, b, c, d]
      = { vertices := s.vertices,
          faces := s.faces ++
            [toUShort a, toUShort b, toUShort c, toUShort c, toUShort d, toUShort a] } := by
  simp [triangulateFace]

theorem triangulateFace_big (h : Headers) (s : MeshArrays) (face : List Nat)
    (hn : 4 < face.length) :
    triangulateFace h s face
      = { vertices := s.vertices ++
            [(faceCenter h s.vertices face).x, (faceCenter h s.vertices face).y,
             (faceCenter h s.vertices face).z],
          faces := s.faces ++ fan face (s.vertices.length + 2) } := by
  have h1 : ¬ face.length < 3 := by omega
  have h2 : ¬ face.length = 3 := by omega
  have h3 : ¬ face.length = 4 := by omega
  simp only [triangulateFace, h1, h2, h3, if_false, foldl_append_eq_flatMap, fan]
  simp

theorem triangulateFaces_append (h : Headers) (s : MeshArrays) (l₁ l₂ : List (List Nat)) :
    triangulateFaces h s (l₁ ++ l₂) = triangulateFaces h (triangulateFaces h s l₁) l₂ := by
  simp [triangulateFaces, List.foldl_append]

theorem triangulateFaces_cons (h : Headers) (s : MeshArrays) (f : List Nat)
    (l : List (List Nat)) :
    triangulateFaces h s (f :: l) = triangulateFaces h (triangulateFace h s f) l := by
  simp [triangulateFaces]

theorem triangulateFaces_nil (h : Headers) (s : MeshArrays) : triangulateFaces h s [] = s := by
  simp [triangulateFaces]

theorem triangulateFace_extends (h : Headers) (s : MeshArrays) (face : List Nat) :
    (∃ vs, (triangulateFace h s face).vertices = s.vertices ++ vs) ∧
    (∃ fs, (triangulateFace h s face).faces = s.faces ++ fs) := by
  by_cases h1 : face.length < 3
  · rw [triangulateFace_small h s face h1]; exact ⟨⟨[], by simp⟩, ⟨[], by simp⟩⟩
  · by_cases h4 : 4 < face.length
    · rw [triangulateFace_big h s face h4]; exact ⟨⟨_, rfl⟩, ⟨_, rfl⟩⟩
    · by_cases h3 : face.length = 3
      · simp only [triangulateFace, h1, h3, if_false, if_true]
        exact ⟨⟨[], by simp⟩, ⟨_, rfl⟩⟩
      · have h5 : face.length = 4 := by omega
        simp only [triangulateFace, h1, h3, h5, if_false, if_true]
        exact ⟨⟨[], by simp⟩, ⟨_, rfl⟩⟩

theorem triangulateFaces_extends (h : Headers) (s : MeshArrays) (l : List (List Nat)) :
    (∃ vs, (triangulateFaces h s l).vertices = s.vertices ++ vs) ∧
    (∃ fs, (triangulateFaces h s l).faces = s.faces ++ fs) := by
  induction l generalizing s with
  | nil => rw [triangulateFaces_nil]; exact ⟨⟨[], by simp⟩, ⟨[], by simp⟩⟩
  | cons f l ih =>
    rw [triangulateFaces_cons]
    obtain ⟨⟨v1, hv1⟩, ⟨f1, hf1⟩⟩ := triangulateFace_extends h s f
    obtain ⟨⟨v2, hv2⟩, ⟨f2, hf2⟩⟩ := ih (triangulateFace h s f)
    exact ⟨⟨v1 ++ v2, by rw [hv2, hv1, List.append_assoc]⟩,
      ⟨f1 ++ f2, by rw [hf2, hf1, List.append_assoc]⟩⟩

/-! ## Lemmas on `drawPolygonalMesh` -/

theorem drawPolygonalMesh_new (h : Headers) (p : VisualizationProtocol) (impl : Nat)
    (mesh : PolygonalMesh) (transform : Transform) (scale : ℚ) (color : Vec4)
    (representation : Int) (hnew : find p.meshes impl = none)
    (hv : (buildArrays h mesh).vertices.length ≤ 65536 * 3)
    (hf : (buildArrays h mesh).faces.length ≤ 65536 * 3) :
    drawPolygonalMesh h p impl mesh transform scale color representation
      = { state :=
            { meshes := p.meshes ++ [(impl, p.meshes.length + 4)],
              outPipe := p.outPipe ++ defineMeshWrites (buildArrays h mesh) ++
                drawMeshWrites h transform (h.vec3OfScalar scale) color (toShort representation)
                  (toUShort (p.meshes.length + 4)) },
          failed := none } := by
  simp [drawPolygonalMesh, hnew, hv, hf, drawMesh]

theorem drawPolygonalMesh_seen (h : Headers) (p : VisualizationProtocol) (impl : Nat)
    (mesh : PolygonalMesh) (transform : Transform) (scale : ℚ) (color : Vec4)
    (representation : Int) (index : Nat) (hseen : find p.meshes impl = some index) :
    drawPolygonalMesh h p impl mesh transform scale color representation
      = { state :=
            { meshes := p.meshes,
              outPipe := p.outPipe ++
                drawMeshWrites h transform (h.vec3OfScalar scale) color (toShort representation)
                  (toUShort index) },
          failed := none } := by
  simp [drawPolygonalMesh, hseen, drawMesh]

theorem drawPolygonalMesh_rejected (h : Headers) (p : VisualizationProtocol) (impl : Nat)
    (mesh : PolygonalMesh) (transform : Transform) (scale : ℚ) (color : Vec4)
    (representation : Int) (hnew : find p.meshes impl = none)
    (hbig : 65536 * 3 < (buildArrays h mesh).vertices.length ∨
      65536 * 3 < (buildArrays h mesh).faces.length) :
    (drawPolygonalMesh h p impl mesh transform scale color representation).state = p ∧
    (drawPolygonalMesh h p impl mesh transform scale color representation).failed.isSome
      = true := by
  by_cases hv : (buildArrays h mesh).vertices.length ≤ 65536 * 3
  · have hf : ¬ (buildArrays h mesh).faces.length ≤ 65536 * 3 := by omega
    simp [drawPolygonalMesh, hnew, hv, hf]
  · simp [drawPolygonalMesh, hnew, hv]

theorem toUShort_of_lt (n : Nat) (hn : n < 65536) : toUShort n = n := by
  simp [toUShort, Nat.mod_eq_of_lt hn]

theorem triangulateFaces_triangles (h : Headers) (s : MeshArrays) (faces : List (List Nat))
    (htri : ∀ f ∈ faces, f.length = 3 ∧ ∀ k ∈ f, k < 65536) :
    triangulateFaces h s faces = { vertices := s.vertices, faces := s.faces ++ faces.flatten } := by
  induction faces generalizing s with
  | nil => simp [triangulateFaces]
  | cons f l ih =>
    obtain ⟨hlen, hlt⟩ := htri f (List.mem_cons_self f l)
    rw [triangulateFaces_cons, ih _ (fun g hg => htri g (List.mem_cons_of_mem f hg))]
    match f, hlen, hlt with
    | [a, b, c], _, hlt =>
      rw [triangulateFace_three, toUShort_of_lt a (hlt a (by simp)),
        toUShort_of_lt b (hlt b (by simp)), toUShort_of_lt c (hlt c (by simp))]
      simp

theorem flatten_length_triangles (faces : List (List Nat)) (htri : ∀ f ∈ faces, f.length = 3) :
    faces.flatten.length = 3 * faces.length := by
  induction faces with
  | nil => simp
  | cons f l ih =>
    simp only [List.flatten_cons, List.length_append, List.length_cons,
      htri f (List.mem_cons_self f l), ih (fun g hg => htri g (List.mem_cons_of_mem f hg))]
    omega

theorem buildArrays_vertices_extends (h : Headers) (mesh : PolygonalMesh) :
    ∃ vs, (buildArrays h mesh).vertices = coordinates mesh.vertices ++ vs := by
  obtain ⟨⟨vs, hvs⟩, _⟩ := triangulateFaces_extends h
    { vertices := flattenVertices mesh, faces := [] } mesh.faces
  exact ⟨vs, by rw [buildArrays, hvs, flattenVertices_eq]⟩

/-! ## The pentagon -/

theorem buildArrays_pentagon_faces (h : Headers) :
    (buildArrays h pentagon).faces = [0, 1, 17, 1, 2, 17, 2, 3, 17, 3, 4, 17] := by
  simp [buildArrays, triangulateFaces, triangulateFace, flattenVertices, pushVertex, pentagon,
    List.range, List.range.loop, toUShort]

theorem buildArrays_pentagon_vertices (h : Headers) :
    (buildArrays h pentagon).vertices
      = flattenVertices pentagon ++
          [(faceCenter h (flattenVertices pentagon) [0, 1, 2, 3, 4]).x,
           (faceCenter h (flattenVertices pentagon) [0, 1, 2, 3, 4]).y,
           (faceCenter h (flattenVertices pentagon) [0, 1, 2, 3, 4]).z] := by
  have hb : buildArrays h pentagon
      = triangulateFace h { vertices := flattenVertices pentagon, faces := [] }
          [0, 1, 2, 3, 4] := rfl
  rw [hb, triangulateFace_big h _ _ (by decide)]

theorem drawPolygonalMesh_pentagon (h : Headers) (transform : Transform) (scale : ℚ)
    (color : Vec4) (representation : Int) :
    (drawPolygonalMesh h { meshes := [], outPipe := [] } 0 pentagon transform scale color
        representation).state.outPipe
      = defineMeshWrites (buildArrays h pentagon) ++
          drawMeshWrites h transform (h.vec3OfScalar scale) color (toShort representation) 4 := by
  have hv : (buildArrays h pentagon).vertices.length ≤ 65536 * 3 := by
    rw [buildArrays_pentagon_vertices]; simp [flattenVertices_length, pentagon]
  have hf : (buildArrays h pentagon).faces.length ≤ 65536 * 3 := by
    rw [buildArrays_pentagon_faces]; simp
  rw [drawPolygonalMesh_new h { meshes := [], outPipe := [] } 0 pentagon transform scale color
    representation rfl hv hf]
  simp [toUShort]

/-! ## Claims -/

/-- C1 (the code falls short of the claim). For the pentagon mesh (five vertices, one face
through all five) the triangulation appends one vertex, three floats, but pushes only
`3 * 4` indices: the DefineMesh message announces 6 vertices and 4 triangles, not the 5
triangles of a closed fan. -/
theorem pentagon_yields_four_triangles (h : Headers) (transform : Transform) (scale : ℚ)
    (color : Vec4) (representation : Int) :
    (buildArrays h pentagon).vertices.length = (flattenVertices pentagon).length + 3 ∧
    (buildArrays h pentagon).faces.length = 3 * 4 ∧
    (drawPolygonalMesh h { meshes := [], outPipe := [] } 0 pentagon transform scale color
        representation).state.outPipe.take 3
      = [Write.command Opcode.DEFINE_MESH, Write.short 6, Write.short 4] := by
  have hlen : (buildArrays h pentagon).vertices.length = 18 := by
    rw [buildArrays_pentagon_vertices]; simp [flattenVertices_length, pentagon]
  refine ⟨?_, ?_, ?_⟩
  · rw [buildArrays_pentagon_vertices]; simp
  · rw [buildArrays_pentagon_faces]; rfl
  · rw [drawPolygonalMesh_pentagon]
    simp [defineMeshWrites, buildArrays_pentagon_faces, hlen, toUShort]

/-- C2 (the code falls short of the claim). For the pentagon mesh the vertex appended for the
face is vertex number 5 of the 6 announced in DefineMesh, but the third index of every
triangle pushed for the face is 17, the position of the last float of the flat array, which
is not a vertex of the message. -/
theorem pentagon_centre_index_is_float_offset (h : Headers) (transform : Transform) (scale : ℚ)
    (color : Vec4) (representation : Int) :
    (drawPolygonalMesh h { meshes := [], outPipe := [] } 0 pentagon transform scale color
        representation).state.outPipe.take 5
      = [Write.command Opcode.DEFINE_MESH, Write.short 6, Write.short 4,
         Write.floats (buildArrays h pentagon).vertices,
         Write.shorts [0, 1, 17, 1, 2, 17, 2, 3, 17, 3, 4, 17]] ∧
    pentagon.vertices.length = 5 ∧
    (buildArrays h pentagon).vertices.length / 3 = 6 ∧
    ¬ 17 < (buildArrays h pentagon).vertices.length / 3 := by
  have hlen : (buildArrays h pentagon).vertices.length = 18 := by
    rw [buildArrays_pentagon_vertices]; simp [flattenVertices_length, pentagon]
  refine ⟨?_, rfl, ?_, ?_⟩
  · rw [drawPolygonalMesh_pentagon]
    simp [defineMeshWrites, buildArrays_pentagon_faces, hlen, toUShort]
  · rw [hlen]
  · rw [hlen]; decide

/-- C3 (the code falls short of the claim). The centre is accumulated from single floats of
the flat array, `vertices[getFaceVertex(i, j)]`, not from vertex positions. Whatever the
scalar operations of `Vec3` are, the vertex appended for the pentagon is the same when its
last vertex is lifted out of the plane, although the mean of the face changes; with the
Simbody operations the appended vertex is (2/5, 2/5, 2/5) while the mean of the five
positions is (1, 8/5, 0). -/
theorem pentagon_centre_is_not_the_mean :
    (∀ h : Headers, (buildArrays h pentagon).vertices.drop 15
        = (buildArrays h pentagonLifted).vertices.drop 15) ∧
    faceMean pentagon [0, 1, 2, 3, 4] ≠ faceMean pentagonLifted [0, 1, 2, 3, 4] ∧
    (buildArrays simbodyHeaders pentagon).vertices.drop 15 = [2 / 5, 2 / 5, 2 / 5] ∧
    faceMean pentagon [0, 1, 2, 3, 4] = { x := 1, y := 8 / 5, z := 0 } := by
  refine ⟨?_, ?_, ?_, ?_⟩
  · intro h
    simp [buildArrays, triangulateFaces, triangulateFace, flattenVertices, pushVertex, pentagon,
      pentagonLifted, faceCenter, List.range, List.range.loop]
  · simp [faceMean, pentagon, pentagonLifted]
  · simp [buildArrays, triangulateFaces, triangulateFace, flattenVertices, pushVertex, pentagon,
      faceCenter, simbodyHeaders, List.range, List.range.loop]
  · simp [faceMean, pentagon]
    norm_num

/-- C4. A mesh not yet in the cache, all of whose faces have exactly three vertices with
indices below 65536, and with at most 65536 vertices and faces, is accepted, and its
DefineMesh message carries the coordinates of the mesh's own vertices, in order, and as index
array the concatenation of the faces' vertex indices in face order. -/
theorem triangle_mesh_is_sent_unchanged (h : Headers) (p : VisualizationProtocol) (impl : Nat)
    (mesh : PolygonalMesh) (transform : Transform) (scale : ℚ) (color : Vec4)
    (representation : Int) (hnew : find p.meshes impl = none)
    (htri : ∀ f ∈ mesh.faces, f.length = 3 ∧ ∀ k ∈ f, k < 65536)
    (hv : mesh.vertices.length ≤ 65536) (hf : mesh.faces.length ≤ 65536) :
    drawPolygonalMesh h p impl mesh transform scale color representation
      = { state :=
            { meshes := p.meshes ++ [(impl, p.meshes.length + 4)],
              outPipe := p.outPipe ++
                [Write.command Opcode.DEFINE_MESH,
                 Write.short (toUShort mesh.vertices.length),
                 Write.short (toUShort mesh.faces.length),
                 Write.floats (coordinates mesh.vertices),
                 Write.shorts mesh.faces.flatten] ++
                drawMeshWrites h transform (h.vec3OfScalar scale) color (toShort representation)
                  (toUShort (p.meshes.length + 4)) },
          failed := none } := by
  have hb : buildArrays h mesh
      = { vertices := coordinates mesh.vertices, faces := mesh.faces.flatten } := by
    rw [buildArrays, triangulateFaces_triangles h _ _ htri, flattenVertices_eq]
    simp
  have hfl : mesh.faces.flatten.length = 3 * mesh.faces.length :=
    flatten_length_triangles _ (fun f hm => (htri f hm).1)
  have hvl := coordinates_length mesh.vertices
  rw [drawPolygonalMesh_new h p impl mesh transform scale color representation hnew
    (by rw [hb]; simp only [hvl]; omega) (by rw [hb]; simp only [hfl]; omega)]
  simp [defineMeshWrites, hb, hvl, hfl]

theorem triangle_mesh_is_sent_unchanged_witness :
    drawPolygonalMesh simbodyHeaders { meshes := [], outPipe := [] } 7 twoTriangles
        identityTransform 1 red 3
      = { state :=
            { meshes := [(7, 4)],
              outPipe :=
                [Write.command Opcode.DEFINE_MESH, Write.short 5, Write.short 2,
                 Write.floats [0, 0, 0, 1, 0, 0, 1, 1, 0, 0, 1, 0, 5, 5, 5],
                 Write.shorts [0, 1, 2, 2, 3, 0],
                 Write.command Opcode.ADD_SOLID_MESH,
                 Write.floats [0, 0, 0, 0, 0, 0, 1, 1, 1, 1, 0, 0, 1],
                 Write.short 4] },
          failed := none } := by
  have hw := triangle_mesh_is_sent_unchanged simbodyHeaders { meshes := [], outPipe := [] } 7
    twoTriangles identityTransform 1 red 3 rfl (by decide) (by decide) (by decide)
  rw [hw]
  simp [twoTriangles, coordinates, drawMeshWrites, simbodyHeaders, identityTransform, red,
    toShort, toUShort]

/-- C5. In a mesh not yet in the cache that is accepted, a face with exactly four vertices
`a, b, c, d` of the mesh makes the loop push the six indices `a, b, c, c, d, a` and leave the
vertex array as it was; the index array of the DefineMesh message is the indices pushed for
the faces before it, then these six, then those of the faces after it. -/
theorem quad_yields_two_triangles (h : Headers) (p : VisualizationProtocol) (impl : Nat)
    (mesh : PolygonalMesh) (pre post : List (List Nat)) (a b c d : Nat)
    (transform : Transform) (scale : ℚ) (color : Vec4) (representation : Int)
    (hnew : find p.meshes impl = none)
    (hfaces : mesh.faces = pre ++ [a, b, c, d] :: post)
    (ha : a < mesh.vertices.length) (hb : b < mesh.vertices.length)
    (hc : c < mesh.vertices.length) (hd : d < mesh.vertices.length)
    (hv : (buildArrays h mesh).vertices.length ≤ 65536 * 3)
    (hf : (buildArrays h mesh).faces.length ≤ 65536 * 3) :
    triangulateFace h
        (triangulateFaces h { vertices := flattenVertices mesh, faces := [] } pre) [a, b, c, d]
      = { vertices :=
            (triangulateFaces h { vertices := flattenVertices mesh, faces := [] } pre).vertices,
          faces :=
            (triangulateFaces h { vertices := flattenVertices mesh, faces := [] } pre).faces
              ++ [a, b, c, c, d, a] } ∧
    ∃ rest,
      drawPolygonalMesh h p impl mesh transform scale color representation
        = { state :=
              { meshes := p.meshes ++ [(impl, p.meshes.length + 4)],
                outPipe := p.outPipe ++
                  [Write.command Opcode.DEFINE_MESH,
                   Write.short (toUShort ((buildArrays h mesh).vertices.length / 3)),
                   Write.short (toUShort ((buildArrays h mesh).faces.length / 3)),
                   Write.floats (buildArrays h mesh).vertices,
                   Write.shorts
                    ((triangulateFaces h { vertices := flattenVertices mesh, faces := [] }
                        pre).faces ++ [a, b, c, c, d, a] ++ rest)] ++
                  drawMeshWrites h transform (h.vec3OfScalar scale) color
                    (toShort representation) (toUShort (p.meshes.length + 4)) },
            failed := none } := by
  have hn : mesh.vertices.length ≤ 65536 := by
    obtain ⟨vs, hvs⟩ := buildArrays_vertices_extends h mesh
    rw [hvs, List.length_append, coordinates_length] at hv
    omega
  have hstep : triangulateFace h
        (triangulateFaces h { vertices := flattenVertices mesh, faces := [] } pre) [a, b, c, d]
      = { vertices :=
            (triangulateFaces h { vertices := flattenVertices mesh, faces := [] } pre).vertices,
          faces :=
            (triangulateFaces h { vertices := flattenVertices mesh, faces := [] } pre).faces
              ++ [a, b, c, c, d, a] } := by
    rw [triangulateFace_four, toUShort_of_lt a (by omega), toUShort_of_lt b (by omega),
      toUShort_of_lt c (by omega), toUShort_of_lt d (by omega)]
  refine ⟨hstep, ?_⟩
  obtain ⟨_, ⟨rest, hrest⟩⟩ := triangulateFaces_extends h
    (triangulateFace h
      (triangulateFaces h { vertices := flattenVertices mesh, faces := [] } pre) [a, b, c, d])
    post
  have hall : (buildArrays h mesh).faces
      = (triangulateFaces h { vertices := flattenVertices mesh, faces := [] } pre).faces
          ++ [a, b, c, c, d, a] ++ rest := by
    rw [buildArrays, hfaces, triangulateFaces_append, triangulateFaces_cons, hrest, hstep]
  refine ⟨rest, ?_⟩
  rw [drawPolygonalMesh_new h p impl mesh transform scale color representation hnew hv hf,
    ← hall]
  simp [defineMeshWrites]

theorem quad_yields_two_triangles_witness :
    triangulateFace simbodyHeaders
        (triangulateFaces simbodyHeaders
          { vertices := flattenVertices triQuadTri, faces := [] } [[0, 1, 4]]) [0, 1, 2, 3]
      = { vertices :=
            (triangulateFaces simbodyHeaders
              { vertices := flattenVertices triQuadTri, faces := [] } [[0, 1, 4]]).vertices,
          faces :=
            (triangulateFaces simbodyHeaders
              { vertices := flattenVertices triQuadTri, faces := [] } [[0, 1, 4]]).faces
              ++ [0, 1, 2, 2, 3, 0] } ∧
    (buildArrays simbodyHeaders triQuadTri).faces
      = [0, 1, 4] ++ [0, 1, 2, 2, 3, 0] ++ [1, 2, 4] :=
  ⟨(quad_yields_two_triangles simbodyHeaders { meshes := [], outPipe := [] } 7 triQuadTri
      [[0, 1, 4]] [[1, 2, 4]] 0 1 2 3 identityTransform 1 red 3 rfl rfl (by decide) (by decide)
      (by decide) (by decide) (by decide) (by decide)).1,
    by decide⟩

/-! ## Lemmas on the mesh cache -/

theorem find_eq_none_iff (l : List (Nat × Nat)) (k : Nat) :
    find l k = none ↔ k ∉ l.map Prod.fst := by
  induction l with
  | nil => simp [find]
  | cons e l ih =>
    obtain ⟨k1, v1⟩ := e
    by_cases hk : k1 = k
    · simp [find, hk]
    · have hk2 : ¬ k = k1 := fun hx => hk hx.symm
      simp [find, hk, hk2, ih]

theorem find_mem (l : List (Nat × Nat)) (k v : Nat) (hfind : find l k = some v) :
    (k, v) ∈ l := by
  induction l with
  | nil => simp [find] at hfind
  | cons e l ih =>
    obtain ⟨k1, v1⟩ := e
    by_cases hk : k1 = k
    · simp [find, hk] at hfind
      simp [hk, hfind]
    · simp [find, hk] at hfind
      exact List.mem_cons_of_mem _ (ih hfind)

theorem find_append_some (l l2 : List (Nat × Nat)) (k v : Nat) (hfind : find l k = some v) :
    find (l ++ l2) k = some v := by
  induction l with
  | nil => simp [find] at hfind
  | cons e l ih =>
    obtain ⟨k1, v1⟩ := e
    by_cases hk : k1 = k
    · simp [find, hk] at hfind
      simp [find, hk, hfind]
    · simp [find, hk] at hfind
      simp [find, hk, ih hfind]

theorem find_append_new (l : List (Nat × Nat)) (k v : Nat) (hfind : find l k = none) :
    find (l ++ [(k, v)]) k = some v := by
  induction l with
  | nil => simp [find]
  | cons e l ih =>
    obtain ⟨k1, v1⟩ := e
    by_cases hk : k1 = k
    · simp [find, hk] at hfind
    · simp [find, hk] at hfind
      simp [find, hk, ih hfind]

/-- What a call of `drawPolygonalMesh` that does not fail does to the cache. -/
theorem drawCall_meshes (h : Headers) (p : VisualizationProtocol) (c : MeshCall)
    (hok : (drawCall h p c).failed = none) :
    (drawCall h p c).state.meshes
      = if find p.meshes c.impl = none then p.meshes ++ [(c.impl, p.meshes.length + 4)]
        else p.meshes := by
  unfold drawCall at hok ⊢
  cases hfind : find p.meshes c.impl with
  | some index => rw [drawPolygonalMesh_seen h p _ _ _ _ _ _ index hfind]; simp
  | none =>
    by_cases hv : (buildArrays h c.mesh).vertices.length ≤ 65536 * 3
    · by_cases hf : (buildArrays h c.mesh).faces.length ≤ 65536 * 3
      · rw [drawPolygonalMesh_new h p _ _ _ _ _ _ hfind hv hf]; simp
      · simp [drawPolygonalMesh, hfind, hv, hf] at hok
    · simp [drawPolygonalMesh, hfind, hv] at hok

/-- A call of `drawPolygonalMesh`, failed or not, keeps every entry of the cache. -/
theorem drawCall_keeps (h : Headers) (p : VisualizationProtocol) (c : MeshCall) (k v : Nat)
    (hfind : find p.meshes k = some v) : find (drawCall h p c).state.meshes k = some v := by
  unfold drawCall
  cases hc : find p.meshes c.impl with
  | some index => rw [drawPolygonalMesh_seen h p _ _ _ _ _ _ index hc]; exact hfind
  | none =>
    by_cases hv : (buildArrays h c.mesh).vertices.length ≤ 65536 * 3
    · by_cases hf : (buildArrays h c.mesh).faces.length ≤ 65536 * 3
      · rw [drawPolygonalMesh_new h p _ _ _ _ _ _ hc hv hf]
        exact find_append_some _ _ _ _ hfind
      · simp [drawPolygonalMesh, hc, hv, hf, hfind]
    · simp [drawPolygonalMesh, hc, hv, hfind]

theorem drawCalls_keeps (h : Headers) (cs : List MeshCall) (p : VisualizationProtocol)
    (k v : Nat) (hfind : find p.meshes k = some v) :
    find (drawCalls h p cs).state.meshes k = some v := by
  induction cs generalizing p with
  | nil => simpa [drawCalls] using hfind
  | cons c cs ih =>
    unfold drawCalls
    cases hc : (drawCall h p c).failed with
    | none => exact ih _ (drawCall_keeps h p c k v hfind)
    | some msg => exact drawCall_keeps h p c k v hfind

/-- C6. Once a mesh identity has been drawn, every later call for that identity, whatever
calls were made in between, succeeds, appends only the three writes of `drawMesh` (none of
them a DefineMesh command), leaves the cache as it was, and sends the mesh index that the
first call for the identity sent after its DefineMesh message. -/
theorem seen_mesh_is_not_redefined (h : Headers) (p : VisualizationProtocol)
    (first : MeshCall) (between : List MeshCall) (again : MeshCall)
    (hnew : find p.meshes first.impl = none)
    (hfirst : (drawCall h p first).failed = none)
    (hsame : again.impl = first.impl) :
    ∃ index : Nat,
      (drawCall h p first).state.outPipe
        = p.outPipe ++ defineMeshWrites (buildArrays h first.mesh) ++
            drawMeshWrites h first.transform (h.vec3OfScalar first.scale) first.color
              (toShort first.representation) index ∧
      drawCall h (drawCalls h (drawCall h p first).state between).state again
        = { state :=
              { meshes := (drawCalls h (drawCall h p first).state between).state.meshes,
                outPipe := (drawCalls h (drawCall h p first).state between).state.outPipe ++
                  drawMeshWrites h again.transform (h.vec3OfScalar again.scale) again.color
                    (toShort again.representation) index },
            failed := none } ∧
      Write.command Opcode.DEFINE_MESH ∉
        drawMeshWrites h again.transform (h.vec3OfScalar again.scale) again.color
          (toShort again.representation) index := by
  have hmesh := drawCall_meshes h p first hfirst
  rw [if_pos hnew] at hmesh
  have hin : find (drawCall h p first).state.meshes first.impl = some (p.meshes.length + 4) := by
    rw [hmesh]; exact find_append_new _ _ _ hnew
  have hlater := drawCalls_keeps h between _ _ _ hin
  refine ⟨toUShort (p.meshes.length + 4), ?_, ?_, ?_⟩
  · unfold drawCall at hfirst ⊢
    by_cases hv : (buildArrays h first.mesh).vertices.length ≤ 65536 * 3
    · by_cases hf : (buildArrays h first.mesh).faces.length ≤ 65536 * 3
      · rw [drawPolygonalMesh_new h p _ _ _ _ _ _ hnew hv hf]
      · simp [drawPolygonalMesh, hnew, hv, hf] at hfirst
    · simp [drawPolygonalMesh, hnew, hv] at hfirst
  · unfold drawCall
    rw [hsame]
    exact drawPolygonalMesh_seen h _ _ _ _ _ _ _ _ hlater
  · unfold drawMeshWrites
    simp only [List.mem_cons, List.mem_singleton, List.not_mem_nil, or_false, not_or]
    refine ⟨?_, ?_, ?_⟩
    · split
      · simp
      · split <;> simp
    · simp
    · simp

theorem seen_mesh_is_not_redefined_witness :
    ∃ index : Nat,
      (drawCall simbodyHeaders { meshes := [], outPipe := [] } callSquare).state.outPipe
        = [] ++ defineMeshWrites (buildArrays simbodyHeaders callSquare.mesh) ++
            drawMeshWrites simbodyHeaders callSquare.transform
              (simbodyHeaders.vec3OfScalar callSquare.scale) callSquare.color
              (toShort callSquare.representation) index ∧
      drawCall simbodyHeaders
          (drawCalls simbodyHeaders
            (drawCall simbodyHeaders { meshes := [], outPipe := [] } callSquare).state
            [callPentagon]).state callSquareAgain
        = { state :=
              { meshes := (drawCalls simbodyHeaders
                  (drawCall simbodyHeaders { meshes := [], outPipe := [] } callSquare).state
                  [callPentagon]).state.meshes,
                outPipe := (drawCalls simbodyHeaders
                  (drawCall simbodyHeaders { meshes := [], outPipe := [] } callSquare).state
                  [callPentagon]).state.outPipe ++
                  drawMeshWrites simbodyHeaders callSquareAgain.transform
                    (simbodyHeaders.vec3OfScalar callSquareAgain.scale) callSquareAgain.color
                    (toShort callSquareAgain.representation) index },
            failed := none } ∧
      Write.command Opcode.DEFINE_MESH ∉
        drawMeshWrites simbodyHeaders callSquareAgain.transform
          (simbodyHeaders.vec3OfScalar callSquareAgain.scale) callSquareAgain.color
          (toShort callSquareAgain.representation) index :=
  seen_mesh_is_not_redefined simbodyHeaders { meshes := [], outPipe := [] } callSquare
    [callPentagon] callSquareAgain rfl (by decide) rfl

/-! ## The order and the indices of the cache -/

theorem drawCall_meshes_cases (h : Headers) (p : VisualizationProtocol) (c : MeshCall) :
    (drawCall h p c).state.meshes = p.meshes ∨
    (drawCall h p c).state.meshes = p.meshes ++ [(c.impl, p.meshes.length + 4)] := by
  unfold drawCall
  cases hc : find p.meshes c.impl with
  | some index => left; rw [drawPolygonalMesh_seen h p _ _ _ _ _ _ index hc]
  | none =>
    by_cases hv : (buildArrays h c.mesh).vertices.length ≤ 65536 * 3
    · by_cases hf : (buildArrays h c.mesh).faces.length ≤ 65536 * 3
      · right; rw [drawPolygonalMesh_new h p _ _ _ _ _ _ hc hv hf]
      · left; simp [drawPolygonalMesh, hc, hv, hf]
    · left; simp [drawPolygonalMesh, hc, hv]

theorem drawCall_indices (h : Headers) (p : VisualizationProtocol) (c : MeshCall)
    (hinv : p.meshes.map Prod.snd = List.range' 4 p.meshes.length) :
    (drawCall h p c).state.meshes.map Prod.snd
      = List.range' 4 (drawCall h p c).state.meshes.length := by
  rcases drawCall_meshes_cases h p c with hm | hm
  · rw [hm]; exact hinv
  · rw [hm, List.map_append, hinv, List.length_append, List.length_singleton,
      List.range'_concat]
    simp [Nat.add_comm]

theorem drawCalls_indices (h : Headers) (cs : List MeshCall) (p : VisualizationProtocol)
    (hinv : p.meshes.map Prod.snd = List.range' 4 p.meshes.length) :
    (drawCalls h p cs).state.meshes.map Prod.snd
      = List.range' 4 (drawCalls h p cs).state.meshes.length := by
  induction cs generalizing p with
  | nil => simpa [drawCalls] using hinv
  | cons c cs ih =>
    unfold drawCalls
    cases hc : (drawCall h p c).failed with
    | none => exact ih _ (drawCall_indices h p c hinv)
    | some msg => exact drawCall_indices h p c hinv

theorem drawCalls_identities (h : Headers) (cs : List MeshCall) (p : VisualizationProtocol)
    (hok : (drawCalls h p cs).failed = none) :
    (drawCalls h p cs).state.meshes.map Prod.fst
      = p.meshes.map Prod.fst ++
          (firstOccurrences (cs.map MeshCall.impl)).filter
            (fun k => decide (k ∉ p.meshes.map Prod.fst)) := by
  induction cs generalizing p with
  | nil => simp [drawCalls, firstOccurrences]
  | cons c cs ih =>
    unfold drawCalls at hok ⊢
    cases hc : (drawCall h p c).failed with
    | some msg => rw [hc] at hok; simp at hok
    | none =>
      rw [hc] at hok
      simp only at hok ⊢
      rw [ih _ hok, drawCall_meshes h p c hc]
      by_cases hfind : find p.meshes c.impl = none
      · have hnot : c.impl ∉ p.meshes.map Prod.fst := (find_eq_none_iff _ _).1 hfind
        rw [if_pos hfind]
        simp only [List.map_cons, firstOccurrences, List.map_append, List.map_nil,
          List.append_assoc, List.singleton_append]
        rw [List.filter_cons_of_pos (by simpa using hnot), List.filter_filter]
        congr 2
        apply List.filter_congr
        intro x _
        by_cases hk : x ∈ p.meshes.map Prod.fst
        · simp [hk]
        · by_cases hx : x = c.impl
          · simp [hx]
          · simp [hk, hx]
      · have hin : c.impl ∈ p.meshes.map Prod.fst := by
          by_contra hx; exact hfind ((find_eq_none_iff _ _).2 hx)
        rw [if_neg hfind]
        simp only [List.map_cons, firstOccurrences]
        rw [List.filter_cons_of_neg (by simpa using hin), List.filter_filter]
        congr 1
        apply List.filter_congr
        intro x _
        by_cases hx : x = c.impl
        · subst hx; simp [hin]
        · simp [hx]

theorem firstOccurrences_nodup (l : List Nat) : (firstOccurrences l).Nodup := by
  induction l with
  | nil => simp [firstOccurrences]
  | cons x xs ih =>
    simp only [firstOccurrences, List.nodup_cons]
    exact ⟨by simp [List.mem_filter], ih.filter _⟩

theorem find_of_mem (l : List (Nat × Nat)) (hnodup : (l.map Prod.fst).Nodup) (k v : Nat)
    (hmem : (k, v) ∈ l) : find l k = some v := by
  induction l with
  | nil => simp at hmem
  | cons e l ih =>
    obtain ⟨k1, v1⟩ := e
    simp only [List.map_cons, List.nodup_cons] at hnodup
    rcases List.mem_cons.1 hmem with heq | htail
    · cases heq; simp [find]
    · have hne : k1 ≠ k := by
        intro hx
        apply hnodup.1
        rw [hx]
        exact List.mem_map_of_mem Prod.fst htail
      simp [find, hne, ih hnodup.2 htail]

/-- C7. After a sequence of `drawPolygonalMesh` calls that started from an empty cache and ran
to its end, the cache holds exactly the distinct identities drawn, in the order of their
first call; the k-th of them (k = 1, 2, ...) has index 3 + k, no two identities share an
index, and every index is at least 4. -/
theorem cache_assigns_sequential_indices (h : Headers) (out : List Write)
    (calls : List MeshCall)
    (hok : (drawCalls h { meshes := [], outPipe := out } calls).failed = none) :
    (drawCalls h { meshes := [], outPipe := out } calls).state.meshes.map Prod.fst
      = firstOccurrences (calls.map MeshCall.impl) ∧
    (∀ k, 1 ≤ k → k ≤ (firstOccurrences (calls.map MeshCall.impl)).length →
      find (drawCalls h { meshes := [], outPipe := out } calls).state.meshes
        ((firstOccurrences (calls.map MeshCall.impl)).getD (k - 1) 0) = some (3 + k)) ∧
    (∀ a b i, find (drawCalls h { meshes := [], outPipe := out } calls).state.meshes a = some i →
      find (drawCalls h { meshes := [], outPipe := out } calls).state.meshes b = some i →
      a = b) ∧
    (∀ a i, find (drawCalls h { meshes := [], outPipe := out } calls).state.meshes a = some i →
      4 ≤ i) := by
  have hfst : (drawCalls h { meshes := [], outPipe := out } calls).state.meshes.map Prod.fst
      = firstOccurrences (calls.map MeshCall.impl) := by
    rw [drawCalls_identities h calls _ hok]; simp
  have hsnd := drawCalls_indices h calls { meshes := [], outPipe := out } (by simp)
  generalize (drawCalls h { meshes := [], outPipe := out } calls).state.meshes = cache
    at hfst hsnd
  have hnodup : (cache.map Prod.fst).Nodup := by rw [hfst]; exact firstOccurrences_nodup _
  refine ⟨hfst, ?_, ?_, ?_⟩
  · intro k hk1 hkn
    have hlen : (firstOccurrences (calls.map MeshCall.impl)).length = cache.length := by
      rw [← hfst, List.length_map]
    have hi : k - 1 < cache.length := by omega
    have he : cache[k - 1]? = some cache[k - 1] := List.getElem?_eq_getElem hi
    have h1 : (firstOccurrences (calls.map MeshCall.impl))[k - 1]? = some (cache[k - 1]).1 := by
      rw [← hfst, List.getElem?_map, he]; rfl
    have h2 : (List.range' 4 cache.length)[k - 1]? = some (cache[k - 1]).2 := by
      rw [← hsnd, List.getElem?_map, he]; rfl
    rw [List.getElem?_range' 4 1 hi] at h2
    have h3 : (cache[k - 1]).2 = 3 + k := by
      have := Option.some.inj h2
      omega
    rw [List.getD_eq_getElem?_getD, h1, Option.getD_some, ← h3]
    exact find_of_mem cache hnodup _ _ (List.getElem_mem hi)
  · intro a b i ha hb
    have hinj := List.inj_on_of_nodup_map (f := Prod.snd)
      (by rw [hsnd]; exact List.nodup_range' 4 cache.length)
      (find_mem cache a i ha) (find_mem cache b i hb) rfl
    exact congrArg Prod.fst hinj
  · intro a i ha
    have hmem : i ∈ cache.map Prod.snd := List.mem_map_of_mem Prod.snd (find_mem cache a i ha)
    rw [hsnd, List.mem_range'_1] at hmem
    exact hmem.1

theorem cache_assigns_sequential_indices_witness :
    (drawCalls simbodyHeaders { meshes := [], outPipe := [] }
        [callSquare, callPentagon, callSquareAgain]).state.meshes = [(7, 4), (9, 5)] ∧
    find (drawCalls simbodyHeaders { meshes := [], outPipe := [] }
        [callSquare, callPentagon, callSquareAgain]).state.meshes
      ((firstOccurrences ([callSquare, callPentagon, callSquareAgain].map MeshCall.impl)).getD
        (2 - 1) 0) = some (3 + 2) :=
  ⟨by decide,
    (cache_assigns_sequential_indices simbodyHeaders []
      [callSquare, callPentagon, callSquareAgain] (by decide)).2.1 2 (by decide) (by decide)⟩

/-! ## The size limits -/

theorem buildArrays_pointCloud (h : Headers) (n : Nat) :
    buildArrays h (pointCloud n)
      = { vertices := coordinates (List.replicate n ⟨0, 0, 0⟩), faces := [] } := by
  simp [buildArrays, pointCloud, triangulateFaces, flattenVertices_eq]

theorem buildArrays_pointCloud_length (h : Headers) (n : Nat) :
    (buildArrays h (pointCloud n)).vertices.length = 3 * n := by
  rw [buildArrays_pointCloud, coordinates_length, List.length_replicate]

/-- C8 (the code falls short of the claim). A mesh of exactly 65536 vertices passes both
assertions, and its DefineMesh message announces 0 vertices in the 16-bit count field while
the positions array that follows holds `3 * 65536` floats. -/
theorem full_mesh_announces_no_vertex (h : Headers) (transform : Transform) (scale : ℚ)
    (color : Vec4) (representation : Int) :
    (drawPolygonalMesh h { meshes := [], outPipe := [] } 0 (pointCloud 65536) transform scale
        color representation).failed = none ∧
    ∃ positions : List ℚ,
      (drawPolygonalMesh h { meshes := [], outPipe := [] } 0 (pointCloud 65536) transform scale
          color representation).state.outPipe.take 5
        = [Write.command Opcode.DEFINE_MESH, Write.short 0, Write.short 0,
           Write.floats positions, Write.shorts []] ∧
      positions.length = 3 * 65536 := by
  have hlen := buildArrays_pointCloud_length h 65536
  have hfaces : (buildArrays h (pointCloud 65536)).faces = [] := by
    rw [buildArrays_pointCloud]
  rw [drawPolygonalMesh_new h { meshes := [], outPipe := [] } 0 (pointCloud 65536) transform
    scale color representation rfl (by rw [hlen]) (by rw [hfaces]; simp)]
  refine ⟨rfl, (buildArrays h (pointCloud 65536)).vertices, ?_, hlen⟩
  simp [defineMeshWrites, hlen, hfaces, toUShort]

/-- C9. A mesh not yet in the cache whose triangulated vertex count or triangle count exceeds
65536 makes `drawPolygonalMesh` fail, and the protocol object is then as it was before the
call: nothing was written and the cache is unchanged. -/
theorem oversized_mesh_is_rejected (h : Headers) (p : VisualizationProtocol) (impl : Nat)
    (mesh : PolygonalMesh) (transform : Transform) (scale : ℚ) (color : Vec4)
    (representation : Int) (hnew : find p.meshes impl = none)
    (hbig : 65536 < (buildArrays h mesh).vertices.length / 3 ∨
      65536 < (buildArrays h mesh).faces.length / 3) :
    (drawPolygonalMesh h p impl mesh transform scale color representation).failed.isSome
      = true ∧
    (drawPolygonalMesh h p impl mesh transform scale color representation).state = p := by
  have hbig2 : 65536 * 3 < (buildArrays h mesh).vertices.length ∨
      65536 * 3 < (buildArrays h mesh).faces.length := by omega
  have hr := drawPolygonalMesh_rejected h p impl mesh transform scale color representation
    hnew hbig2
  exact ⟨hr.2, hr.1⟩

theorem oversized_mesh_is_rejected_witness :
    (drawPolygonalMesh simbodyHeaders { meshes := [(7, 4)], outPipe := [] } 9
        (pointCloud 65537) identityTransform 1 red 3).failed.isSome = true ∧
    (drawPolygonalMesh simbodyHeaders { meshes := [(7, 4)], outPipe := [] } 9
        (pointCloud 65537) identityTransform 1 red 3).state
      = { meshes := [(7, 4)], outPipe := [] } :=
  oversized_mesh_is_rejected simbodyHeaders { meshes := [(7, 4)], outPipe := [] } 9
    (pointCloud 65537) identityTransform 1 red 3 (by decide)
    (Or.inl (by rw [buildArrays_pointCloud_length]; omega))

/-! ## Text -/

/-- C10. A call of `drawText` fails exactly when the string is longer than 256 characters; when
it fails the protocol object is as it was, nothing written; when it does not fail it has
appended the AddText command, the seven floats, the 16-bit length of the string and then
the characters of the string, all of them and nothing after them. -/
theorem drawText_checks_length_first (p : VisualizationProtocol) (position : Vec3) (scale : ℚ)
    (color : Vec4) (string : List Char) :
    ((drawText p position scale color string).failed.isSome = true ↔ 256 < string.length) ∧
    (256 < string.length → (drawText p position scale color string).state = p) ∧
    (string.length ≤ 256 →
      (drawText p position scale color string).state
        = { meshes := p.meshes,
            outPipe := p.outPipe ++
              [Write.command Opcode.ADD_TEXT,
               Write.floats
                [position.x, position.y, position.z, scale, color.r, color.g, color.b],
               Write.short string.length,
               Write.chars string] }) := by
  by_cases hlen : string.length ≤ 256
  · have hshort : toShort (string.length : Int) = (string.length : Int) := by
      unfold toShort; omega
    have hbits : ((string.length : Int) % 65536).toNat = string.length := by omega
    refine ⟨?_, ?_, ?_⟩
    · simp [drawText, hlen]
    · intro hx; omega
    · intro _
      simp [drawText, hlen, hshort, hbits]
  · refine ⟨?_, ?_, ?_⟩
    · simp [drawText, hlen]; omega
    · intro _; simp [drawText, hlen]
    · intro hx; omega

theorem drawText_checks_length_first_witness :
    (drawText { meshes := [], outPipe := [] } ⟨1, 2, 3⟩ 1 red ['O', 'K']).state
      = { meshes := [],
          outPipe :=
            [Write.command Opcode.ADD_TEXT, Write.floats [1, 2, 3, 1, 1, 0, 0],
             Write.short 2, Write.chars ['O', 'K']] } :=
  (drawText_checks_length_first { meshes := [], outPipe := [] } ⟨1, 2, 3⟩ 1 red
    ['O', 'K']).2.2 (by decide)

/-! ## The built-in shapes -/

theorem toShort_of_range (n : Int) (hlo : -32768 ≤ n) (hhi : n < 32768) : toShort n = n := by
  unfold toShort; omega

/-- C11 (as the code has it). For a representation that fits a signed 16-bit integer,
`drawBox`, `drawEllipsoid`, `drawCylinder` and `drawCircle` append the same two writes, then
the 16-bit mesh index 0, 1, 2 and 3: the command, which is AddPointMesh for DrawPoints,
AddWireframeMesh for DrawWireframe and AddSolidMesh otherwise, and the 13 floats rotation,
translation, scale, rgba in this order. -/
theorem builtin_shapes_share_payload (h : Headers) (p : VisualizationProtocol)
    (transform : Transform) (scale : Vec3) (color : Vec4) (representation : Int)
    (hlo : -32768 ≤ representation) (hhi : representation < 32768) :
    ∃ payload : List Write,
      payload
        = [Write.command
            (if representation = h.DrawPoints then Opcode.ADD_POINT_MESH
             else if representation = h.DrawWireframe then Opcode.ADD_WIREFRAME_MESH
             else Opcode.ADD_SOLID_MESH),
           Write.floats
            [transform.rot.x, transform.rot.y, transform.rot.z,
             transform.T.x, transform.T.y, transform.T.z,
             scale.x, scale.y, scale.z,
             color.r, color.g, color.b, color.a]] ∧
      drawBox h p transform scale color representation
        = { meshes := p.meshes, outPipe := p.outPipe ++ payload ++ [Write.short 0] } ∧
      drawEllipsoid h p transform scale color representation
        = { meshes := p.meshes, outPipe := p.outPipe ++ payload ++ [Write.short 1] } ∧
      drawCylinder h p transform scale color representation
        = { meshes := p.meshes, outPipe := p.outPipe ++ payload ++ [Write.short 2] } ∧
      drawCircle h p transform scale color representation
        = { meshes := p.meshes, outPipe := p.outPipe ++ payload ++ [Write.short 3] } := by
  have hs := toShort_of_range representation hlo hhi
  refine ⟨_, rfl, ?_, ?_, ?_, ?_⟩ <;>
    simp [drawBox, drawEllipsoid, drawCylinder, drawCircle, drawMesh, drawMeshWrites, hs]

theorem builtin_shapes_share_payload_witness :
    drawBox simbodyHeaders { meshes := [], outPipe := [] } identityTransform ⟨1, 1, 1⟩ red 3
      = { meshes := [],
          outPipe :=
            [Write.command Opcode.ADD_SOLID_MESH,
             Write.floats [0, 0, 0, 0, 0, 0, 1, 1, 1, 1, 0, 0, 1],
             Write.short 0] } := by
  obtain ⟨payload, hp, hbox, _⟩ := builtin_shapes_share_payload simbodyHeaders
    { meshes := [], outPipe := [] } identityTransform ⟨1, 1, 1⟩ red 3 (by decide) (by decide)
  rw [hbox, hp]
  simp [simbodyHeaders, identityTransform, red]

/-- C11 fails as stated: the representation 65537 is neither DrawPoints (1) nor DrawWireframe
(2), yet after the conversion to `short` the box is sent with the AddPointMesh command, not
AddSolidMesh. -/
theorem drawBox_wraps_representation :
    (65537 : Int) ≠ simbodyHeaders.DrawPoints ∧
    (65537 : Int) ≠ simbodyHeaders.DrawWireframe ∧
    drawBox simbodyHeaders { meshes := [], outPipe := [] } identityTransform ⟨1, 1, 1⟩ red 65537
      = { meshes := [],
          outPipe :=
            [Write.command Opcode.ADD_POINT_MESH,
             Write.floats [0, 0, 0, 0, 0, 0, 1, 1, 1, 1, 0, 0, 1],
             Write.short 0] } := by
  refine ⟨by decide, by decide, ?_⟩
  simp [drawBox, drawMesh, drawMeshWrites, simbodyHeaders, identityTransform, red, toShort]

/-! ## Faces of fewer than three vertices -/

theorem triangulateFaces_withoutSmall (h : Headers) (faces : List (List Nat)) (s : MeshArrays) :
    triangulateFaces h s (faces.filter (fun f => decide (3 ≤ f.length)))
      = triangulateFaces h s faces := by
  induction faces generalizing s with
  | nil => rfl
  | cons f l ih =>
    by_cases hf : 3 ≤ f.length
    · rw [List.filter_cons_of_pos (by simpa using hf), triangulateFaces_cons,
        triangulateFaces_cons, ih]
    · rw [List.filter_cons_of_neg (by simpa using hf), triangulateFaces_cons,
        triangulateFace_small h s f (by omega), ih]

/-- C16. Faces of fewer than three vertices are dropped: the arrays built for a mesh, hence
its DefineMesh message, and the whole outcome of `drawPolygonalMesh` are those of the same
mesh without these faces. -/
theorem small_faces_are_dropped (h : Headers) (p : VisualizationProtocol) (impl : Nat)
    (mesh : PolygonalMesh) (transform : Transform) (scale : ℚ) (color : Vec4)
    (representation : Int) :
    defineMeshWrites (buildArrays h mesh)
      = defineMeshWrites (buildArrays h (withoutSmallFaces mesh)) ∧
    drawPolygonalMesh h p impl mesh transform scale color representation
      = drawPolygonalMesh h p impl (withoutSmallFaces mesh) transform scale color
          representation := by
  have hb : buildArrays h (withoutSmallFaces mesh) = buildArrays h mesh := by
    simp only [buildArrays, withoutSmallFaces, flattenVertices]
    exact triangulateFaces_withoutSmall h mesh.faces _
  refine ⟨by rw [hb], ?_⟩
  simp only [drawPolygonalMesh, hb]

/-! ## The quoted title -/

theorem quoteStep_output (st : List Char × Bool) (c : Char) :
    ∃ inserted, (quoteStep st c).1 = st.1 ++ inserted ++ [c] := by
  obtain ⟨out, quoting⟩ := st
  by_cases hsp : isspace c = true
  · cases quoting
    · exact ⟨[dquote], by simp [quoteStep, hsp]⟩
    · exact ⟨[], by simp [quoteStep, hsp]⟩
  · cases quoting <;> by_cases hq : c = dquote
    · subst hq; exact ⟨[backslash], by simp [quoteStep, hsp]⟩
    · exact ⟨[], by simp [quoteStep, hsp, hq]⟩
    · subst hq; exact ⟨[dquote, backslash], by simp [quoteStep, hsp]⟩
    · exact ⟨[dquote], by simp [quoteStep, hsp, hq]⟩

theorem foldl_quoteStep_sublist (cs : List Char) (st : List Char × Bool) :
    List.Sublist (st.1 ++ cs) (cs.foldl quoteStep st).1 := by
  induction cs generalizing st with
  | nil => simp
  | cons c cs ih =>
    obtain ⟨inserted, hins⟩ := quoteStep_output st c
    have h1 := ih (quoteStep st c)
    rw [hins] at h1
    refine List.Sublist.trans ?_ h1
    have h2 : List.Sublist (st.1 ++ [c]) (st.1 ++ inserted ++ [c]) := by
      rw [List.append_assoc]
      exact List.Sublist.append (List.Sublist.refl _) (List.sublist_append_right _ _)
    have h3 := List.Sublist.append h2 (List.Sublist.refl cs)
    rw [List.append_assoc st.1 [c] cs] at h3
    exact h3

theorem foldl_quoteStep_plain (cs : List Char) (out : List Char)
    (hplain : ∀ c ∈ cs, isspace c = false ∧ c ≠ dquote) :
    cs.foldl quoteStep (out, false) = (out ++ cs, false) := by
  induction cs generalizing out with
  | nil => simp
  | cons c cs ih =>
    obtain ⟨hsp, hq⟩ := hplain c (List.mem_cons_self c cs)
    have hstep : quoteStep (out, false) c = (out ++ [c], false) := by
      simp [quoteStep, hsp, hq]
    rw [List.foldl_cons, hstep, ih _ (fun d hd => hplain d (List.mem_cons_of_mem c hd))]
    simp

/-- C12 (the code falls short of the claim). The title `a\ "b"` has an embedded space and
double quotes; its quoted form is `a\" "\"b\"`, where the quote inserted before the space
follows the backslash of the title, and the command line reads back as the two arguments
`a"` and `"b"`, not as the title. A title without backslash, `My "x" Win`, does read back as
itself. -/
theorem backslash_before_space_splits_title :
    quoteString titleBackslashSpace
      = ['a', backslash, dquote, ' ', dquote, backslash, dquote, 'b', backslash, dquote] ∧
    parseCommandLine (quoteString titleBackslashSpace)
      = [['a', dquote], [dquote, 'b', dquote]] ∧
    parseCommandLine (quoteString titleBackslashSpace) ≠ [titleBackslashSpace] ∧
    parseCommandLine (quoteString titleQuoted) = [titleQuoted] := by
  decide

/-- C13 (the code falls short of the claim). For the title `a ` (a letter and a space) the
output is the letter, one double quote and the space: a quote is inserted before the final
run of whitespace and none after it, so the output holds a single, unmatched quote. -/
theorem trailing_space_leaves_quote_open :
    quoteString ['a', ' '] = ['a', dquote, ' '] ∧
    (quoteString ['a', ' ']).count dquote = 1 := by
  decide

/-- C19. A title without whitespace and without double quote is returned unchanged, and every
title is a subsequence of its quoted form. -/
theorem quoteString_keeps_title (title : List Char) :
    ((∀ c ∈ title, isspace c = false ∧ c ≠ dquote) → quoteString title = title) ∧
    List.Sublist title (quoteString title) := by
  refine ⟨?_, ?_⟩
  · intro hplain
    simp [quoteString, foldl_quoteStep_plain title [] hplain]
  · have hsub := foldl_quoteStep_sublist title ([], false)
    simpa [quoteString] using hsub

theorem quoteString_keeps_title_witness :
    quoteString ['S', 'i', 'm'] = ['S', 'i', 'm'] ∧
    List.Sublist ['a', ' ', dquote] (quoteString ['a', ' ', dquote]) :=
  ⟨(quoteString_keeps_title ['S', 'i', 'm']).1 (by decide),
    (quoteString_keeps_title ['a', ' ', dquote]).2⟩

/-! ## Reading from the inbound pipe -/

theorem store_length (buffer got : List Nat) (offset : Nat)
    (hfit : offset + got.length ≤ buffer.length) :
    (store buffer offset got).length = buffer.length := by
  simp only [store, List.length_append, List.length_take, List.length_drop]
  omega

theorem store_take (buffer got : List Nat) (offset : Nat) (hoff : offset ≤ buffer.length) :
    (store buffer offset got).take (offset + got.length) = buffer.take offset ++ got := by
  have hlen : (buffer.take offset ++ got).length = offset + got.length := by
    simp only [List.length_append, List.length_take]; omega
  rw [store, ← hlen]
  exact List.take_left' rfl

theorem store_drop (buffer got : List Nat) (offset n : Nat) (hoff : offset ≤ buffer.length)
    (hn : offset + got.length ≤ n) : (store buffer offset got).drop n = buffer.drop n := by
  have hlen : (buffer.take offset ++ got).length = offset + got.length := by
    simp only [List.length_append, List.length_take]; omega
  have hsplit : n = (buffer.take offset ++ got).length + (n - (offset + got.length)) := by
    omega
  calc (store buffer offset got).drop n
      = (buffer.take offset ++ got ++ buffer.drop (offset + got.length)).drop
          ((buffer.take offset ++ got).length + (n - (offset + got.length))) := by
        rw [← hsplit, store]
    _ = (buffer.drop (offset + got.length)).drop (n - (offset + got.length)) :=
        List.drop_append _
    _ = buffer.drop n := by
        rw [List.drop_drop]; congr 1; omega

theorem readDataLoop_delivers (bytes : Nat) (fuel : Nat) (pipe : InPipe) (buffer : List Nat)
    (totalRead : Nat) (hchunk : ∀ n, 1 ≤ pipe.chunk n) (htotal : totalRead ≤ bytes)
    (hfuel : bytes - totalRead ≤ fuel) (hdata : bytes - totalRead ≤ pipe.data.length)
    (hbuf : bytes ≤ buffer.length) :
    ∃ reads,
      readDataLoop bytes fuel pipe buffer totalRead
        = some (buffer.take totalRead ++ pipe.data.take (bytes - totalRead) ++ buffer.drop bytes,
            { data := pipe.data.drop (bytes - totalRead), chunk := pipe.chunk,
              reads := reads }) := by
  induction fuel generalizing pipe buffer totalRead with
  | zero =>
    have heq : totalRead = bytes := by omega
    subst heq
    exact ⟨pipe.reads, by simp [readDataLoop]⟩
  | succ fuel ih =>
    by_cases hlt : totalRead < bytes
    · have hk1 : 1 ≤ min (bytes - totalRead) (pipe.chunk pipe.reads) := by
        have := hchunk pipe.reads
        omega
      have hk2 : min (bytes - totalRead) (pipe.chunk pipe.reads) ≤ bytes - totalRead :=
        Nat.min_le_left _ _
      generalize hk : min (bytes - totalRead) (pipe.chunk pipe.reads) = k at hk1 hk2
      have hgot : (pipe.data.take k).length = k := by
        rw [List.length_take]; omega
      obtain ⟨reads, hres⟩ := ih (READ pipe (bytes - totalRead)).2
        (store buffer totalRead (READ pipe (bytes - totalRead)).1)
        (totalRead + (READ pipe (bytes - totalRead)).1.length)
        (by simpa [READ] using hchunk)
        (by simp only [READ, hk, hgot]; omega)
        (by simp only [READ, hk, hgot]; omega)
        (by simp only [READ, hk, hgot, List.length_drop]; omega)
        (by
          simp only [READ, hk]
          rw [store_length _ _ _ (by rw [hgot]; omega)]
          exact hbuf)
      refine ⟨reads, ?_⟩
      rw [readDataLoop, if_pos hlt, hres]
      simp only [READ, hk, hgot]
      have h1 : (store buffer totalRead (pipe.data.take k)).take (totalRead + k)
          = buffer.take totalRead ++ pipe.data.take k := by
        have := store_take buffer (pipe.data.take k) totalRead (by omega)
        rwa [hgot] at this
      have h2 : (store buffer totalRead (pipe.data.take k)).drop bytes = buffer.drop bytes :=
        store_drop buffer (pipe.data.take k) totalRead bytes (by omega) (by rw [hgot]; omega)
      have h3 : pipe.data.take k ++ (pipe.data.drop k).take (bytes - (totalRead + k))
          = pipe.data.take (bytes - totalRead) := by
        have hsum : bytes - totalRead = k + (bytes - (totalRead + k)) := by omega
        rw [hsum, List.take_add]
      have h4 : (pipe.data.drop k).drop (bytes - (totalRead + k))
          = pipe.data.drop (bytes - totalRead) := by
        rw [List.drop_drop]; congr 1; omega
      rw [h1, h2, h4, List.append_assoc (buffer.take totalRead), h3]
    · have heq : totalRead = bytes := by omega
      subst heq
      exact ⟨pipe.reads, by simp [readDataLoop]⟩

theorem readData_delivers (fuel : Nat) (pipe : InPipe) (buffer : List Nat) (bytes : Nat)
    (hchunk : ∀ n, 1 ≤ pipe.chunk n) (hfuel : bytes ≤ fuel) (hdata : bytes ≤ pipe.data.length)
    (hbuf : bytes ≤ buffer.length) :
    ∃ reads,
      readData fuel pipe buffer bytes
        = some (pipe.data.take bytes ++ buffer.drop bytes,
            { data := pipe.data.drop bytes, chunk := pipe.chunk, reads := reads }) := by
  obtain ⟨reads, hres⟩ := readDataLoop_delivers bytes fuel pipe buffer 0 hchunk
    (Nat.zero_le _) (by omega) (by omega) hbuf
  exact ⟨reads, by simpa [readData] using hres⟩

/-- C18. When every read delivers at least one byte, the pipe holds the `bytes` bytes asked
for and the buffer has room for them, `readData` returns after at most `bytes` iterations of
its loop, whatever the sizes of the single reads; the buffer then begins with the first
`bytes` bytes of the pipe in their order, is unchanged behind them, and exactly these bytes
have left the pipe. -/
theorem readData_collects_exactly (fuel : Nat) (pipe : InPipe) (buffer : List Nat)
    (bytes : Nat) (hchunk : ∀ n, 1 ≤ pipe.chunk n) (hfuel : bytes ≤ fuel)
    (hdata : bytes ≤ pipe.data.length) (hbuf : bytes ≤ buffer.length) :
    ∃ buffer1 pipe1,
      readData fuel pipe buffer bytes = some (buffer1, pipe1) ∧
      buffer1.take bytes = pipe.data.take bytes ∧
      buffer1.drop bytes = buffer.drop bytes ∧
      pipe.data = pipe.data.take bytes ++ pipe1.data ∧
      pipe1.chunk = pipe.chunk := by
  obtain ⟨reads, hres⟩ := readData_delivers fuel pipe buffer bytes hchunk hfuel hdata hbuf
  have hlen : (pipe.data.take bytes).length = bytes := by
    rw [List.length_take]; omega
  refine ⟨_, _, hres, ?_, ?_, ?_, rfl⟩
  · exact List.take_left' hlen
  · exact List.drop_left' hlen
  · exact (List.take_append_drop bytes pipe.data).symm

theorem readData_collects_exactly_witness :
    (readData 4 (stutter [10, 20, 30, 40, 50, 60]) [0, 0, 0, 0, 0] 4).map
        (fun r => (r.1, r.2.data, r.2.reads))
      = some ([10, 20, 30, 40, 0], [50, 60], 3) ∧
    ∃ buffer1 pipe1,
      readData 4 (stutter [10, 20, 30, 40, 50, 60]) [0, 0, 0, 0, 0] 4
        = some (buffer1, pipe1) ∧
      buffer1.take 4 = (stutter [10, 20, 30, 40, 50, 60]).data.take 4 ∧
      buffer1.drop 4 = [0, 0, 0, 0, 0].drop 4 ∧
      (stutter [10, 20, 30, 40, 50, 60]).data
        = (stutter [10, 20, 30, 40, 50, 60]).data.take 4 ++ pipe1.data ∧
      pipe1.chunk = (stutter [10, 20, 30, 40, 50, 60]).chunk :=
  ⟨by decide,
    readData_collects_exactly 4 (stutter [10, 20, 30, 40, 50, 60]) [0, 0, 0, 0, 0] 4
      (by intro n; simp only [stutter]; split <;> omega) (by decide) (by decide) (by decide)⟩

/-! ## The listener loop -/

theorem intOfBytes_bytesOfInt (x : Int) (hlo : -2147483648 ≤ x) (hhi : x < 2147483648) :
    intOfBytes (bytesOfInt x) = x := by
  simp only [intOfBytes, bytesOfInt, List.getD_cons_zero, List.getD_cons_succ, toInt]
  omega

theorem readDataLoop_empty (bytes fuel : Nat) (buffer : List Nat) (chunk : Nat → Nat)
    (reads : Nat) (hbytes : 0 < bytes) :
    readDataLoop bytes fuel { data := [], chunk := chunk, reads := reads } buffer 0 = none := by
  induction fuel generalizing reads with
  | zero => simp [readDataLoop, hbytes]
  | succ fuel ih =>
    rw [readDataLoop, if_pos hbytes]
    have hstore : store buffer 0 (READ { data := [], chunk := chunk, reads := reads }
        (bytes - 0)).1 = buffer := by
      simp [READ, store]
    rw [hstore]
    simpa [READ] using ih (reads + 1)

/-- The first `readData(buffer, 1)` of an iteration when the pipe holds a byte. -/
theorem readData_opcode (readFuel : Nat) (pipe : InPipe) (buffer : List Nat) (b : Nat)
    (rest : List Nat) (hdata : pipe.data = b :: rest) (hchunk : ∀ n, 1 ≤ pipe.chunk n)
    (hbuf : 1 ≤ buffer.length) (hfuel : 1 ≤ readFuel) :
    ∃ reads,
      readData readFuel pipe buffer 1
        = some (b :: buffer.drop 1, { data := rest, chunk := pipe.chunk, reads := reads }) := by
  obtain ⟨reads, hres⟩ := readData_delivers readFuel pipe buffer 1 hchunk hfuel
    (by rw [hdata]; simp) hbuf
  exact ⟨reads, by simpa [hdata] using hres⟩

theorem listenOnce_key (codes : InboundCodes) (numListeners readFuel : Nat) (s : Listener)
    (key modifiers : Nat) (rest : List Nat)
    (hdata : s.pipe.data = codes.KEY_PRESSED :: key :: modifiers :: rest)
    (hchunk : ∀ n, 1 ≤ s.pipe.chunk n) (hbuf : 2 ≤ s.buffer.length) (hfuel : 4 ≤ readFuel) :
    ∃ reads,
      listenOnce codes numListeners readFuel s
        = ({ pipe := { data := rest, chunk := s.pipe.chunk, reads := reads },
             buffer := key :: modifiers :: s.buffer.drop 2,
             notified := s.notified ++
               dispatchOf numListeners (InboundEvent.KeyPressed key modifiers) },
           ListenerStatus.running) := by
  obtain ⟨r1, h1⟩ := readData_opcode readFuel s.pipe s.buffer _ _ hdata hchunk (by omega)
    (by omega)
  obtain ⟨r2, h2⟩ := readData_delivers readFuel
    { data := key :: modifiers :: rest, chunk := s.pipe.chunk, reads := r1 }
    (codes.KEY_PRESSED :: s.buffer.drop 1) 2 hchunk (by omega) (by simp)
    (by simp only [List.length_cons, List.length_drop]; omega)
  refine ⟨r2, ?_⟩
  simp only [listenOnce, h1, h2, List.getD_cons_zero, if_true]
  simp [dispatchOf]

theorem listenOnce_menu (codes : InboundCodes) (numListeners readFuel : Nat) (s : Listener)
    (itemId : Int) (rest : List Nat) (hcodes : codes.KEY_PRESSED ≠ codes.MENU_SELECTED)
    (hlo : -2147483648 ≤ itemId) (hhi : itemId < 2147483648)
    (hdata : s.pipe.data = codes.MENU_SELECTED :: (bytesOfInt itemId ++ rest))
    (hchunk : ∀ n, 1 ≤ s.pipe.chunk n) (hbuf : 2 ≤ s.buffer.length) (hfuel : 4 ≤ readFuel) :
    ∃ reads,
      listenOnce codes numListeners readFuel s
        = ({ pipe := { data := rest, chunk := s.pipe.chunk, reads := reads },
             buffer := codes.MENU_SELECTED :: s.buffer.drop 1,
             notified := s.notified ++
               dispatchOf numListeners (InboundEvent.MenuSelected itemId) },
           ListenerStatus.running) := by
  obtain ⟨r1, h1⟩ := readData_opcode readFuel s.pipe s.buffer _ _ hdata hchunk (by omega)
    (by omega)
  have hlen : (bytesOfInt itemId).length = 4 := rfl
  obtain ⟨r2, h2⟩ := readData_delivers readFuel
    { data := bytesOfInt itemId ++ rest, chunk := s.pipe.chunk, reads := r1 }
    [0, 0, 0, 0] 4 hchunk (by omega) (by simp only [List.length_append, hlen]; omega)
    (by simp)
  have htake : (bytesOfInt itemId ++ rest).take 4 = bytesOfInt itemId :=
    List.take_left' hlen
  have hdrop : (bytesOfInt itemId ++ rest).drop 4 = rest := List.drop_left' hlen
  simp only [htake, hdrop] at h2
  refine ⟨r2, ?_⟩
  have hne : ¬ codes.MENU_SELECTED = codes.KEY_PRESSED := fun hx => hcodes hx.symm
  simp only [listenOnce, h1, h2, List.getD_cons_zero, if_true, hne, if_false]
  simp [dispatchOf, intOfBytes_bytesOfInt itemId hlo hhi]

theorem listenOnce_empty (codes : InboundCodes) (numListeners readFuel : Nat) (s : Listener)
    (hdata : s.pipe.data = []) :
    listenOnce codes numListeners readFuel s = (s, ListenerStatus.blocked) := by
  have hpipe : s.pipe = { data := [], chunk := s.pipe.chunk, reads := s.pipe.reads } := by
    cases hp : s.pipe with
    | mk data chunk reads => rw [hp] at hdata; simp at hdata; simp [hdata]
  have hnone : readData readFuel s.pipe s.buffer 1 = none := by
    rw [hpipe]; exact readDataLoop_empty 1 readFuel s.buffer _ _ (by decide)
  simp [listenOnce, hnone]

theorem listen_dispatches (codes : InboundCodes) (numListeners readFuel : Nat)
    (hcodes : codes.KEY_PRESSED ≠ codes.MENU_SELECTED) (hfuel : 4 ≤ readFuel)
    (events : List InboundEvent) (fuel : Nat) (s : Listener)
    (hsteps : events.length < fuel)
    (hdata : s.pipe.data = events.flatMap (encodeEvent codes))
    (hchunk : ∀ n, 1 ≤ s.pipe.chunk n) (hbuf : 2 ≤ s.buffer.length)
    (hint : ∀ e ∈ events, ∀ itemId, e = InboundEvent.MenuSelected itemId →
      -2147483648 ≤ itemId ∧ itemId < 2147483648) :
    (listenForVisualizationEvents codes numListeners readFuel fuel s).1.notified
      = s.notified ++ events.flatMap (dispatchOf numListeners) ∧
    (listenForVisualizationEvents codes numListeners readFuel fuel s).2
      = ListenerStatus.blocked ∧
    (listenForVisualizationEvents codes numListeners readFuel fuel s).1.pipe.data = [] := by
  induction events generalizing fuel s with
  | nil =>
    obtain ⟨f, rfl⟩ : ∃ f, fuel = f + 1 := ⟨fuel - 1, by simp at hsteps; omega⟩
    have hd : s.pipe.data = [] := by simpa using hdata
    simp [listenForVisualizationEvents, listenOnce_empty codes numListeners readFuel s hd, hd]
  | cons e es ih =>
    obtain ⟨f, rfl⟩ : ∃ f, fuel = f + 1 :=
      ⟨fuel - 1, by simp only [List.length_cons] at hsteps; omega⟩
    have hes : es.length < f := by simp only [List.length_cons] at hsteps; omega
    have hint2 : ∀ e2 ∈ es, ∀ itemId, e2 = InboundEvent.MenuSelected itemId →
        -2147483648 ≤ itemId ∧ itemId < 2147483648 :=
      fun e2 he2 => hint e2 (List.mem_cons_of_mem e he2)
    cases e with
    | KeyPressed key modifiers =>
      have hd : s.pipe.data
          = codes.KEY_PRESSED :: key :: modifiers :: es.flatMap (encodeEvent codes) := by
        rw [hdata]; simp [encodeEvent]
      obtain ⟨reads, hstep⟩ := listenOnce_key codes numListeners readFuel s key modifiers _
        hd hchunk hbuf hfuel
      have hrec := ih f
        { pipe := { data := es.flatMap (encodeEvent codes), chunk := s.pipe.chunk,
                    reads := reads },
          buffer := key :: modifiers :: s.buffer.drop 2,
          notified := s.notified ++
            dispatchOf numListeners (InboundEvent.KeyPressed key modifiers) }
        hes rfl hchunk (by simp) hint2
      simp only [listenForVisualizationEvents, hstep]
      simpa [List.append_assoc] using hrec
    | MenuSelected itemId =>
      obtain ⟨hlo, hhi⟩ := hint _ (List.mem_cons_self _ es) itemId rfl
      have hd : s.pipe.data
          = codes.MENU_SELECTED :: (bytesOfInt itemId ++ es.flatMap (encodeEvent codes)) := by
        rw [hdata]; simp [encodeEvent]
      obtain ⟨reads, hstep⟩ := listenOnce_menu codes numListeners readFuel s itemId _
        hcodes hlo hhi hd hchunk hbuf hfuel
      have hrec := ih f
        { pipe := { data := es.flatMap (encodeEvent codes), chunk := s.pipe.chunk,
                    reads := reads },
          buffer := codes.MENU_SELECTED :: s.buffer.drop 1,
          notified := s.notified ++
            dispatchOf numListeners (InboundEvent.MenuSelected itemId) }
        hes rfl hchunk (by simp only [List.length_cons, List.length_drop]; omega) hint2
      simp only [listenForVisualizationEvents, hstep]
      simpa [List.append_assoc] using hrec

/-- C14. When the pipe holds the encodings of a list of events one after the other (item ids
within the signed 32-bit range, the two command codes distinct) and every read delivers at
least one byte, the listener loop, given enough iterations, calls every listener once for
each event, in the order of the events and with the key and modifier bytes or the item id of
the event; it has then read the whole pipe and waits in `readData`, no assertion failed. -/
theorem listener_dispatches_encoded_events (codes : InboundCodes)
    (numListeners readFuel fuel : Nat) (events : List InboundEvent) (chunk : Nat → Nat)
    (reads : Nat) (buffer : List Nat)
    (hcodes : codes.KEY_PRESSED ≠ codes.MENU_SELECTED)
    (hint : ∀ e ∈ events, ∀ itemId, e = InboundEvent.MenuSelected itemId →
      -2147483648 ≤ itemId ∧ itemId < 2147483648)
    (hchunk : ∀ n, 1 ≤ chunk n) (hbuf : 2 ≤ buffer.length) (hfuel : 4 ≤ readFuel)
    (hsteps : events.length < fuel) :
    (listenForVisualizationEvents codes numListeners readFuel fuel
        { pipe := { data := events.flatMap (encodeEvent codes), chunk := chunk, reads := reads },
          buffer := buffer, notified := [] }).1.notified
      = events.flatMap (dispatchOf numListeners) ∧
    (listenForVisualizationEvents codes numListeners readFuel fuel
        { pipe := { data := events.flatMap (encodeEvent codes), chunk := chunk, reads := reads },
          buffer := buffer, notified := [] }).2
      = ListenerStatus.blocked ∧
    (listenForVisualizationEvents codes numListeners readFuel fuel
        { pipe := { data := events.flatMap (encodeEvent codes), chunk := chunk, reads := reads },
          buffer := buffer, notified := [] }).1.pipe.data = [] := by
  have hmain := listen_dispatches codes numListeners readFuel hcodes hfuel events fuel
    { pipe := { data := events.flatMap (encodeEvent codes), chunk := chunk, reads := reads },
      buffer := buffer, notified := [] } hsteps rfl hchunk hbuf hint
  simpa using hmain

theorem listener_dispatches_encoded_events_witness :
    (listenForVisualizationEvents exampleCodes 2 4 3
        { pipe :=
            { data := [InboundEvent.KeyPressed 65 1, InboundEvent.MenuSelected (-7)].flatMap
                (encodeEvent exampleCodes),
              chunk := fun n => if n % 2 = 0 then 1 else 2, reads := 0 },
          buffer := List.replicate 256 0, notified := [] }).1.notified
      = [Notification.keyPressed 0 65 1, Notification.keyPressed 1 65 1,
         Notification.menuSelected 0 (-7), Notification.menuSelected 1 (-7)] :=
  (listener_dispatches_encoded_events exampleCodes 2 4 3
    [InboundEvent.KeyPressed 65 1, InboundEvent.MenuSelected (-7)]
    (fun n => if n % 2 = 0 then 1 else 2) 0 (List.replicate 256 0) (by decide)
    (by
      intro e he itemId hid
      simp only [List.mem_cons, List.mem_singleton, List.not_mem_nil, or_false] at he
      rcases he with rfl | rfl
      · cases hid
      · cases hid; constructor <;> decide)
    (by intro n; dsimp only; split <;> omega)
    (by rw [List.length_replicate]; decide) (by decide) (by decide)).1

/-- C15. When the listener loop reads a byte where it expects a command code (every read
delivering at least one byte), the iteration ends in the failed assertion exactly when the
byte is neither the KeyPressed nor the MenuSelected code; it has then called no listener and
taken only that byte from the pipe. -/
theorem listener_fails_on_unknown_code (codes : InboundCodes) (numListeners readFuel : Nat)
    (s : Listener) (b : Nat) (rest : List Nat) (hdata : s.pipe.data = b :: rest)
    (hchunk : ∀ n, 1 ≤ s.pipe.chunk n) (hbuf : 1 ≤ s.buffer.length) (hfuel : 1 ≤ readFuel) :
    ((listenOnce codes numListeners readFuel s).2 = ListenerStatus.failed ↔
      (b ≠ codes.KEY_PRESSED ∧ b ≠ codes.MENU_SELECTED)) ∧
    ((listenOnce codes numListeners readFuel s).2 = ListenerStatus.failed →
      (listenOnce codes numListeners readFuel s).1.notified = s.notified ∧
      (listenOnce codes numListeners readFuel s).1.pipe.data = rest) := by
  obtain ⟨r1, h1⟩ := readData_opcode readFuel s.pipe s.buffer b rest hdata hchunk hbuf hfuel
  by_cases hk : b = codes.KEY_PRESSED
  · have hnot : (listenOnce codes numListeners readFuel s).2 ≠ ListenerStatus.failed := by
      simp only [listenOnce, h1, List.getD_cons_zero, hk, if_true]
      split <;> simp
    exact ⟨⟨fun hx => absurd hx hnot, fun hx => absurd hk hx.1⟩, fun hx => absurd hx hnot⟩
  · by_cases hm : b = codes.MENU_SELECTED
    · have hnot : (listenOnce codes numListeners readFuel s).2 ≠ ListenerStatus.failed := by
        subst hm
        simp only [listenOnce, h1, List.getD_cons_zero, hk, if_false, if_true]
        split <;> simp
      exact ⟨⟨fun hx => absurd hx hnot, fun hx => absurd hm hx.2⟩, fun hx => absurd hx hnot⟩
    · have hfail : listenOnce codes numListeners readFuel s
          = ({ pipe := { data := rest, chunk := s.pipe.chunk, reads := r1 },
               buffer := b :: s.buffer.drop 1, notified := s.notified },
             ListenerStatus.failed) := by
        simp only [listenOnce, h1, List.getD_cons_zero, hk, hm, if_false]
      rw [hfail]
      exact ⟨⟨fun _ => ⟨hk, hm⟩, fun _ => rfl⟩, fun _ => ⟨rfl, rfl⟩⟩

theorem listener_fails_on_unknown_code_witness :
    (listenOnce exampleCodes 2 4
        { pipe := stutter [9, 1, 65, 1], buffer := List.replicate 256 0, notified := [] }).2
      = ListenerStatus.failed ∧
    (listenOnce exampleCodes 2 4
        { pipe := stutter [9, 1, 65, 1], buffer := List.replicate 256 0,
          notified := [] }).1.pipe.data = [1, 65, 1] := by
  have hw := listener_fails_on_unknown_code exampleCodes 2 4
    { pipe := stutter [9, 1, 65, 1], buffer := List.replicate 256 0, notified := [] }
    9 [1, 65, 1] rfl (by intro n; simp only [stutter]; split <;> omega)
    (by rw [List.length_replicate]; decide) (by decide)
  have hfailed := hw.1.2 ⟨by decide, by decide⟩
  exact ⟨hfailed, (hw.2 hfailed).2⟩

/-! ## The scene lock -/

theorem exclusive_step (ws1 ws2 : List Write) (t : Threads) (who : Bool)
    (hinv : Exclusive ws1 ws2 t) : Exclusive ws1 ws2 (threadStep t who) := by
  cases hinv with
  | start =>
    cases who
    · exact Exclusive.sceneInside [] ws1 rfl
    · exact Exclusive.controlInside [] ws2 rfl
  | sceneInside pre r hsplit =>
    cases who
    · cases r with
      | nil =>
        have hpre : pre = ws1 := by simp [hsplit]
        subst hpre
        exact Exclusive.sceneDone
      | cons w r =>
        exact Exclusive.sceneInside (pre ++ [w]) r (by simp [hsplit])
    · exact Exclusive.sceneInside pre r hsplit
  | sceneDone =>
    cases who
    · exact Exclusive.sceneDone
    · have hstep : threadStep
          { locked := false, scene := [], control := critical ws2, outPipe := ws1 } true
          = { locked := true, scene := [], control := ws2.map Action.write ++ [Action.unlock],
              outPipe := ws1 ++ [] } := by
        simp [threadStep, critical]
      rw [hstep]
      exact Exclusive.controlSecond [] ws2 rfl
  | controlSecond pre r hsplit =>
    cases who
    · exact Exclusive.controlSecond pre r hsplit
    · cases r with
      | nil =>
        have hpre : pre = ws2 := by simp [hsplit]
        subst hpre
        exact Exclusive.sceneThenControl
      | cons w r =>
        have hstep : threadStep
            { locked := true, scene := [],
              control := (w :: r).map Action.write ++ [Action.unlock], outPipe := ws1 ++ pre }
            true
            = { locked := true, scene := [], control := r.map Action.write ++ [Action.unlock],
                outPipe := ws1 ++ (pre ++ [w]) } := by
          simp [threadStep]
        rw [hstep]
        exact Exclusive.controlSecond (pre ++ [w]) r (by simp [hsplit])
  | sceneThenControl =>
    cases who <;> exact Exclusive.sceneThenControl
  | controlInside pre r hsplit =>
    cases who
    · exact Exclusive.controlInside pre r hsplit
    · cases r with
      | nil =>
        have hpre : pre = ws2 := by simp [hsplit]
        subst hpre
        exact Exclusive.controlDone
      | cons w r =>
        exact Exclusive.controlInside (pre ++ [w]) r (by simp [hsplit])
  | controlDone =>
    cases who
    · have hstep : threadStep
          { locked := false, scene := critical ws1, control := [], outPipe := ws2 } false
          = { locked := true, scene := ws1.map Action.write ++ [Action.unlock], control := [],
              outPipe := ws2 ++ [] } := by
        simp [threadStep, critical]
      rw [hstep]
      exact Exclusive.sceneSecond [] ws1 rfl
    · exact Exclusive.controlDone
  | sceneSecond pre r hsplit =>
    cases who
    · cases r with
      | nil =>
        have hpre : pre = ws1 := by simp [hsplit]
        subst hpre
        exact Exclusive.controlThenScene
      | cons w r =>
        have hstep : threadStep
            { locked := true, scene := (w :: r).map Action.write ++ [Action.unlock],
              control := [], outPipe := ws2 ++ pre }
            false
            = { locked := true, scene := r.map Action.write ++ [Action.unlock], control := [],
                outPipe := ws2 ++ (pre ++ [w]) } := by
          simp [threadStep]
        rw [hstep]
        exact Exclusive.sceneSecond (pre ++ [w]) r (by simp [hsplit])
    · exact Exclusive.sceneSecond pre r hsplit
  | controlThenScene =>
    cases who <;> exact Exclusive.controlThenScene

theorem exclusive_interleave (ws1 ws2 : List Write) (schedule : List Bool) (t : Threads)
    (hinv : Exclusive ws1 ws2 t) : Exclusive ws1 ws2 (interleave schedule t) := by
  induction schedule generalizing t with
  | nil => exact hinv
  | cons who rest ih => exact ih _ (exclusive_step ws1 ws2 t who hinv)

theorem exclusive_outPipe (ws1 ws2 : List Write) (t : Threads) (hinv : Exclusive ws1 ws2 t) :
    (t.outPipe <+: ws1 ++ ws2 ∨ t.outPipe <+: ws2 ++ ws1) ∧
    (t.scene = [] → t.control = [] → t.outPipe = ws1 ++ ws2 ∨ t.outPipe = ws2 ++ ws1) := by
  cases hinv with
  | start => exact ⟨Or.inl (List.nil_prefix), fun hs => by simp [critical] at hs⟩
  | sceneInside pre r hsplit =>
    refine ⟨Or.inl ?_, fun hs => by simp at hs⟩
    rw [hsplit, List.append_assoc]; exact List.prefix_append _ _
  | sceneDone => exact ⟨Or.inl (List.prefix_append _ _), fun _ hc => by simp [critical] at hc⟩
  | controlSecond pre r hsplit =>
    refine ⟨Or.inl ?_, fun _ hc => by simp at hc⟩
    rw [hsplit, ← List.append_assoc]; exact List.prefix_append _ _
  | sceneThenControl => exact ⟨Or.inl (List.prefix_refl _), fun _ _ => Or.inl rfl⟩
  | controlInside pre r hsplit =>
    refine ⟨Or.inr ?_, fun hs => by simp [critical] at hs⟩
    rw [hsplit, List.append_assoc]; exact List.prefix_append _ _
  | controlDone => exact ⟨Or.inr (List.prefix_append _ _), fun hs => by simp [critical] at hs⟩
  | sceneSecond pre r hsplit =>
    refine ⟨Or.inr ?_, fun hs => by simp at hs⟩
    rw [hsplit, ← List.append_assoc]; exact List.prefix_append _ _
  | controlThenScene => exact ⟨Or.inr (List.prefix_refl _), fun _ _ => Or.inr rfl⟩

theorem writesOf_critical (ws : List Write) : writesOf (critical ws) = ws := by
  have hbody : ∀ l : List Write, writesOf (l.map Action.write ++ [Action.unlock]) = l := by
    intro l
    induction l with
    | nil => rfl
    | cons w l ih => simp [writesOf, ih]
  simp [critical, writesOf, hbody]

theorem sceneBracket_critical (draws : List Write) :
    sceneBracket draws
      = critical (Write.command Opcode.START_OF_SCENE ::
          (draws ++ [Write.command Opcode.END_OF_SCENE])) := by
  simp [sceneBracket, beginScene, finishScene, critical]

theorem addMenu_critical (title : List Char) (items : List (List Char × Int)) :
    ∃ ws, addMenu title items = critical ws := by
  refine ⟨[Write.command Opcode.DEFINE_MENU,
      Write.short (toShort title.length % 65536).toNat,
      Write.chars (title.take (toShort title.length).toNat),
      Write.short (toShort items.length % 65536).toNat] ++
    (items.take (toShort items.length).toNat).flatMap
      (fun item => [Write.ints [item.2, (item.1.length : Int)], Write.chars item.1]), ?_⟩
  simp only [addMenu, critical, List.map_append, List.map_cons, List.map_nil,
    List.cons_append, List.nil_append, List.append_assoc, List.map_flatMap]

theorem control_critical (transform : Transform) (fov near far : ℚ) (axis : Int) (height : ℚ)
    (title : List Char) (items : List (List Char × Int)) (control : List Action)
    (hcontrol : control ∈
      [setCameraTransform transform, zoomCamera, setFieldOfView fov,
       setClippingPlanes near far, setGroundPosition axis height, addMenu title items]) :
    control = critical (writesOf control) := by
  have hex : ∃ ws, control = critical ws := by
    simp only [List.mem_cons, List.mem_singleton, List.not_mem_nil, or_false] at hcontrol
    rcases hcontrol with rfl | rfl | rfl | rfl | rfl | rfl
    · exact ⟨[Write.command Opcode.SET_CAMERA,
        Write.floats [transform.rot.x, transform.rot.y, transform.rot.z,
          transform.T.x, transform.T.y, transform.T.z]], rfl⟩
    · exact ⟨[Write.command Opcode.ZOOM_CAMERA], rfl⟩
    · exact ⟨[Write.command Opcode.SET_FIELD_OF_VIEW, Write.floats [fov]], rfl⟩
    · exact ⟨[Write.command Opcode.SET_CLIP_PLANES, Write.floats [near, far]], rfl⟩
    · exact ⟨[Write.command Opcode.SET_GROUND_POSITION, Write.floats [height],
        Write.short (toShort axis % 65536).toNat], rfl⟩
    · exact addMenu_critical title items
  obtain ⟨ws, hws⟩ := hex
  rw [hws, writesOf_critical]

/-- C17. One thread runs a scene bracket (`beginScene`, the writes of any draw commands,
`finishScene`) and another thread runs one of `setCameraTransform`, `zoomCamera`,
`setFieldOfView`, `setClippingPlanes`, `setGroundPosition`, `addMenu`. In every interleaving of
their steps the outbound pipe is at every moment a beginning of "control message, then
scene" or of "scene, then control message", and once both threads have finished it is one of
the two: the writes of the control message stand together, all before the BeginScene command
or all after the EndScene command. -/
theorem control_message_never_splits_scene (draws : List Write) (transform : Transform)
    (fov near far : ℚ) (axis : Int) (height : ℚ) (title : List Char)
    (items : List (List Char × Int)) (control : List Action) (schedule : List Bool)
    (hcontrol : control ∈
      [setCameraTransform transform, zoomCamera, setFieldOfView fov,
       setClippingPlanes near far, setGroundPosition axis height, addMenu title items]) :
    ((interleave schedule
        { locked := false, scene := sceneBracket draws, control := control,
          outPipe := [] }).outPipe
        <+: writesOf control ++
          (Write.command Opcode.START_OF_SCENE ::
            (draws ++ [Write.command Opcode.END_OF_SCENE])) ∨
     (interleave schedule
        { locked := false, scene := sceneBracket draws, control := control,
          outPipe := [] }).outPipe
        <+: (Write.command Opcode.START_OF_SCENE ::
            (draws ++ [Write.command Opcode.END_OF_SCENE])) ++ writesOf control) ∧
    ((interleave schedule
        { locked := false, scene := sceneBracket draws, control := control,
          outPipe := [] }).scene = [] →
     (interleave schedule
        { locked := false, scene := sceneBracket draws, control := control,
          outPipe := [] }).control = [] →
     (interleave schedule
        { locked := false, scene := sceneBracket draws, control := control,
          outPipe := [] }).outPipe
        = writesOf control ++
          (Write.command Opcode.START_OF_SCENE ::
            (draws ++ [Write.command Opcode.END_OF_SCENE])) ∨
     (interleave schedule
        { locked := false, scene := sceneBracket draws, control := control,
          outPipe := [] }).outPipe
        = (Write.command Opcode.START_OF_SCENE ::
            (draws ++ [Write.command Opcode.END_OF_SCENE])) ++ writesOf control) := by
  have hc := control_critical transform fov near far axis height title items control hcontrol
  have hinv : Exclusive
      (Write.command Opcode.START_OF_SCENE :: (draws ++ [Write.command Opcode.END_OF_SCENE]))
      (writesOf control)
      (interleave schedule
        { locked := false, scene := sceneBracket draws, control := control,
          outPipe := [] }) := by
    apply exclusive_interleave
    rw [sceneBracket_critical]
    have hstart := @Exclusive.start
      (Write.command Opcode.START_OF_SCENE :: (draws ++ [Write.command Opcode.END_OF_SCENE]))
      (writesOf control)
    rw [← hc] at hstart
    exact hstart
  have hout := exclusive_outPipe _ _ _ hinv
  refine ⟨hout.1.symm, fun hs hct => (hout.2 hs hct).symm⟩

theorem control_message_never_splits_scene_witness :
    (interleave
        [false, false, true, false, true, false, false, true, true, true, true, true]
        { locked := false,
          scene := sceneBracket [Write.short 5], control := setFieldOfView 1,
          outPipe := [] }).outPipe
      = [Write.command Opcode.START_OF_SCENE, Write.short 5,
         Write.command Opcode.END_OF_SCENE,
         Write.command Opcode.SET_FIELD_OF_VIEW, Write.floats [1]] := by
  have hw := (control_message_never_splits_scene [Write.short 5] identityTransform 1 1 2 0 0
    [] [] (setFieldOfView 1)
    [false, false, true, false, true, false, false, true, true, true, true, true]
    (by simp)).2 (by decide) (by decide)
  rcases hw with hw | hw
  · exact absurd hw (by decide)
  · exact hw

end SimTK
